import Mathlib

/-!
Verification development for the "Focus" bounded-conversation-buffer mechanism:
a shallow embedding of `src/agents/focus.py`, `src/agents/base.py`,
`src/agents/baseline.py` and `src/tools/focus.py` (the `FocusAgent` run loop,
its compression engine, the focus stack, the knowledge ledger and the
tagged-string focus-control tools), together with theorems about the
tool-pairing invariant, truncation safety and the run-loop bookkeeping.

Conventions of the embedding:
* Python `list` values become Lean `List`s; the focus stack is kept with its
  top (the most recently pushed `FocusState`) at the head of the list, which
  mirrors `list.append`/`list.pop` acting on the Python list's tail.
* Machine wall-clock readings (`time.time()`) are external effects; every
  point where the Python code reads the clock takes the reading from an
  abstract `clock` oracle, and all durations are abstract `Nat` values.
* The inference provider and the non-focus tools are external collaborators;
  they are modelled by an `Oracle` of pure functions.
* Python string operations (`str.split` with a maxsplit, `in`, `startswith`,
  `rstrip`) are re-implemented on `List Char` by structural recursion so that
  every definition is executable and kernel-reducible.  `rstrip` is modelled
  on the ASCII whitespace characters, which covers every string the program
  builds.
-/

namespace ACC

/-! ## Data model, from `src/agents/base.py` and `src/tools/base.py` -/

/-- `MessageRole` from `src/agents/base.py`. -/
inductive MessageRole where
  | system
  | user
  | assistant
  | tool
deriving DecidableEq

/-- One entry of `Message.tool_calls`: the dicts `{id, name, arguments}`
built in `BaselineAgent._call_anthropic` / `_call_openai`.  Tool arguments
are string-keyed dictionaries; the values that ever reach the focus tools
are strings, so arguments are modelled as association lists of strings. -/
structure ToolCall where
  id : String
  name : String
  arguments : List (String × String)
deriving DecidableEq

/-- `Message` from `src/agents/base.py`. -/
structure Message where
  role : MessageRole
  content : String
  toolCalls : List ToolCall
  toolCallId : Option String
  name : Option String
deriving DecidableEq

/-- `StepSnapshot` from `src/agents/base.py`; `timestamp` is an abstract
clock reading. -/
structure StepSnapshot where
  step : Nat
  messageCount : Nat
  totalTokens : Nat
  compressionsSoFar : Nat
  timestamp : Nat
deriving DecidableEq

/-- `AgentMetrics` from `src/agents/base.py`. -/
structure AgentMetrics where
  totalInputTokens : Nat
  totalOutputTokens : Nat
  llmCalls : Nat
  toolCalls : Nat
  compressions : Nat
  messagesDropped : Nat
  wallTimeSeconds : Nat
  trajectory : List StepSnapshot
deriving DecidableEq

/-- `ToolResult` from `src/tools/base.py`. -/
structure ToolResult where
  success : Bool
  output : String
  error : Option String
  isCompression : Bool
deriving DecidableEq

/-- `FocusState` from `src/tools/focus.py`. -/
structure FocusState where
  description : String
  goal : String
  startMessageIndex : Nat
deriving DecidableEq

/-- `KnowledgeEntry` from `src/agents/focus.py`. -/
structure KnowledgeEntry where
  focusDescription : String
  focusGoal : String
  outcome : String
  learnings : String
deriving DecidableEq

/-- The dict returned by `parse_focus_complete` in `src/tools/focus.py`:
keys `outcome`, `learnings`, `next_action`. -/
structure FocusData where
  outcome : String
  learnings : String
  nextAction : String
deriving DecidableEq

/-- The mutable state of a `FocusAgent` during one run: `self.messages`,
`self._focus_stack` (top at the head), `self._knowledge`, `self.metrics`. -/
structure AgentState where
  messages : List Message
  focusStack : List FocusState
  knowledge : List KnowledgeEntry
  metrics : AgentMetrics
deriving DecidableEq

/-- `Agent.reset` leaves `self.messages = []` and `self.metrics =
AgentMetrics()`; `FocusAgent.reset` additionally clears the stack and the
ledger. -/
def initialState : AgentState :=
  ⟨[], [], [], ⟨0, 0, 0, 0, 0, 0, 0, []⟩⟩

/-- Helper mirroring `Message(role=SYSTEM, content=...)`. -/
def sysMsg (content : String) : Message :=
  ⟨MessageRole.system, content, [], none, none⟩

/-- Helper mirroring `Message(role=USER, content=...)`. -/
def userMsg (content : String) : Message :=
  ⟨MessageRole.user, content, [], none, none⟩

/-- Helper mirroring the assistant `Message` built from an LLM response. -/
def assistantMsg (content : String) (toolCalls : List ToolCall) : Message :=
  ⟨MessageRole.assistant, content, toolCalls, none, none⟩

/-- Helper mirroring `Message(role=TOOL, content=..., tool_call_id=...,
name=...)`. -/
def toolMsg (content : String) (toolCallId : String) (name : String) : Message :=
  ⟨MessageRole.tool, content, [], some toolCallId, some name⟩

/-! ## Python string primitives, re-implemented structurally -/

/-- Split `s` at the first occurrence of `sep`, returning the part before
and the part after, or `none` when `sep` does not occur.  This is the
primitive underlying Python's `sep in s`, `s.split(sep)[0]` and
`s.split(sep, maxsplit)`. -/
def splitFirst (sep : List Char) : List Char → Option (List Char × List Char)
  | [] => if sep = [] then some ([], []) else none
  | c :: rest =>
    if sep.isPrefixOf (c :: rest) then some ([], (c :: rest).drop sep.length)
    else
      match splitFirst sep rest with
      | some (pre, post) => some (c :: pre, post)
      | none => none

/-- Python's `s.split(sep, maxsplit)`: at most `maxsplit` splits, scanning
left to right. -/
def pySplit (sep : List Char) : Nat → List Char → List (List Char)
  | 0, s => [s]
  | maxsplit + 1, s =>
    match splitFirst sep s with
    | none => [s]
    | some (pre, post) => pre :: pySplit sep maxsplit post

/-- Python's `needle in s` substring test. -/
def containsSub (needle s : List Char) : Bool :=
  (splitFirst needle s).isSome

/-- The ASCII whitespace characters stripped by Python's `str.rstrip()`.
`Char.ofNat 11` and `Char.ofNat 12` are vertical tab and form feed. -/
def isPyWhitespace (c : Char) : Bool :=
  c = ' ' || c = '\t' || c = '\n' || c = '\r' || c = Char.ofNat 11 || c = Char.ofNat 12

/-- Python's `s.rstrip()` (restricted to ASCII whitespace, which covers all
strings this program manipulates). -/
def pyRstrip (s : String) : String :=
  String.mk ((s.data.reverse.dropWhile isPyWhitespace).reverse)

/-! ## Focus-control tools, from `src/tools/focus.py` -/

/-- `StartFocusTool.execute`: returns the reserved tagged-string signal. -/
def startFocusExecute (description goal : String) : ToolResult :=
  ⟨true, "FOCUS_START::" ++ description ++ "::" ++ goal, none, false⟩

/-- `CompleteFocusTool.execute`: returns the reserved tagged-string signal
(`next_action` defaults to the empty string at the call site). -/
def completeFocusExecute (outcome learnings nextAction : String) : ToolResult :=
  ⟨true, "FOCUS_COMPLETE::" ++ outcome ++ "::" ++ learnings ++ "::" ++ nextAction, none, false⟩

/-- `parse_focus_start` from `src/tools/focus.py`. -/
def parseFocusStart (output : String) : Option (String × String) :=
  if "FOCUS_START::".data.isPrefixOf output.data then
    let parts := pySplit "::".data 2 output.data
    if parts.length = 3 then some (String.mk (parts.getD 1 []), String.mk (parts.getD 2 []))
    else none
  else none

/-- `parse_focus_complete` from `src/tools/focus.py`. -/
def parseFocusComplete (output : String) : Option FocusData :=
  if "FOCUS_COMPLETE::".data.isPrefixOf output.data then
    let parts := pySplit "::".data 3 output.data
    if 3 ≤ parts.length then
      some ⟨String.mk (parts.getD 1 []), String.mk (parts.getD 2 []),
            if 3 < parts.length then String.mk (parts.getD 3 []) else ""⟩
    else none
  else none

/-- A single-quote character as a string (kept out of string literals). -/
def squote : String := String.mk [Char.ofNat 39]

/-! ## Knowledge ledger rendering, from `FocusAgent._build_knowledge_section` -/

/-- The `outcome_emoji` dict lookup with default `"?"`. -/
def outcomeEmoji (outcome : String) : String :=
  if outcome = "success" then "✓"
  else if outcome = "partial" then "~"
  else if outcome = "blocked" then "✗"
  else if outcome = "abandoned" then "→"
  else "?"

/-- The five lines appended for entry number `i` (1-based, as produced by
`enumerate(self._knowledge, 1)`). -/
def entryLines (i : Nat) (e : KnowledgeEntry) : List String :=
  ["### " ++ toString i ++ ". [" ++ outcomeEmoji e.outcome ++ "] " ++ e.focusDescription,
   "**Goal:** " ++ e.focusGoal,
   "**Outcome:** " ++ e.outcome,
   "**Learnings:** " ++ e.learnings,
   ""]

/-- The loop body of `_build_knowledge_section`, numbering entries from `i`. -/
def knowledgeLines : Nat → List KnowledgeEntry → List String
  | _, [] => []
  | i, e :: es => entryLines i e ++ knowledgeLines (i + 1) es

/-- `FocusAgent._build_knowledge_section`: pure function of the ledger. -/
def buildKnowledgeSection (knowledge : List KnowledgeEntry) : String :=
  if knowledge = [] then ""
  else
    String.intercalate "\n"
      ("## KNOWLEDGE (Preserved from previous investigations)\n" :: knowledgeLines 1 knowledge)

/-- The fixed delimiter `knowledge_marker` in
`_rebuild_messages_with_knowledge`. -/
def knowledgeMarker : String := "## KNOWLEDGE"

/-- `FocusAgent._rebuild_messages_with_knowledge`, as a pure function of the
ledger and the message buffer: strips any previous knowledge section from the
system turn (everything from the first occurrence of the marker on, plus
trailing whitespace of what precedes it) and appends the fresh rendering.
A buffer with fewer than two turns is returned unchanged. -/
def rebuildMessagesWithKnowledge (knowledge : List KnowledgeEntry) (messages : List Message) :
    List Message :=
  if messages.length < 2 then messages
  else
    match messages with
    | [] => messages
    | m0 :: rest =>
      let base :=
        match splitFirst knowledgeMarker.data m0.content.data with
        | some (pre, _) => pyRstrip (String.mk pre)
        | none => m0.content
      let ks := buildKnowledgeSection knowledge
      let newContent := if ks = "" then base else base ++ "\n\n" ++ ks
      sysMsg newContent :: rest

/-! ## Safe truncation scan, from `FocusAgent._find_safe_truncation_point` -/

/-- Is the turn after index `j` absent or not a tool result?  This is the
second half of the condition
`i + 1 >= len(self.messages) or self.messages[i + 1].role != TOOL`. -/
def nextNotTool (messages : List Message) (j : Nat) : Bool :=
  match messages[j + 1]? with
  | none => true
  | some m => m.role != MessageRole.tool

/-- The backward loop `for i in range(target_index, min_safe - 1, -1)` of
`_find_safe_truncation_point`: indices `i ≥ len(messages)` are skipped, a
user turn or the last tool result of a group yields `i + 1`, and falling
through the loop yields the protected minimum 2. -/
def safeScan (messages : List Message) : Nat → Nat
  | 0 => 2
  | 1 => 2
  | i + 2 =>
    match messages[i + 2]? with
    | none => safeScan messages (i + 1)
    | some msg =>
      if msg.role = MessageRole.user then i + 3
      else if msg.role = MessageRole.tool ∧ nextNotTool messages (i + 2) then i + 3
      else safeScan messages (i + 1)

/-- `FocusAgent._find_safe_truncation_point`. -/
def findSafeTruncationPoint (messages : List Message) (targetIndex : Nat) : Nat :=
  if targetIndex ≤ 2 then 2
  else safeScan messages targetIndex

/-! ## Compression engine, from `FocusAgent._handle_start_focus` and
`FocusAgent._handle_complete_focus` -/

/-- `FocusAgent._handle_start_focus`: push a marker anchored at the current
buffer length (the tool result of the `start_focus` call has not been
appended yet). -/
def handleStartFocus (description goal : String) (s : AgentState) : AgentState :=
  { s with focusStack := ⟨description, goal, s.messages.length⟩ :: s.focusStack }

/-- The continuation user turn appended at the end of
`_handle_complete_focus` (note the trailing space after "above."). -/
def continuationText (description : String) (focusData : FocusData) : String :=
  "Focus completed: " ++ description ++ "\n\nOutcome: " ++ focusData.outcome ++
    "\n\nYour learnings have been saved to the KNOWLEDGE section above. \n\n" ++
    (if focusData.nextAction ≠ "" then "Next: " ++ focusData.nextAction
     else "What would you like to do next?")

/-- `FocusAgent._handle_complete_focus`.  With no active focus it returns a
failed tool result and leaves the state untouched.  Otherwise it pops the
stack, appends a knowledge entry, truncates the buffer at the safe point
(only when that would drop at least one turn, which is also the only case
that counts a compression), re-splices the knowledge preamble, records a
post-compression trajectory snapshot and appends the continuation user turn.
`now` is the abstract clock reading for the snapshot's timestamp.  The
`rich` console logging performed in the drop branch is output-only and is
not modelled. -/
def handleCompleteFocus (focusData : FocusData) (now : Nat) (s : AgentState) :
    ToolResult × AgentState :=
  match s.focusStack with
  | [] => (⟨false, "", some "No active focus to complete. Use start_focus first.", false⟩, s)
  | focus :: stackRest =>
    let entry : KnowledgeEntry := ⟨focus.description, focus.goal, focusData.outcome, focusData.learnings⟩
    let s1 := { s with focusStack := stackRest, knowledge := s.knowledge ++ [entry] }
    let truncateTo := focus.startMessageIndex
    let safePoint := findSafeTruncationPoint s1.messages truncateTo
    let messagesToDrop := s1.messages.length - safePoint
    let s2 :=
      if 0 < messagesToDrop then
        { s1 with
          messages := s1.messages.take safePoint,
          metrics := { s1.metrics with
            messagesDropped := s1.metrics.messagesDropped + messagesToDrop,
            compressions := s1.metrics.compressions + 1 } }
      else s1
    let s3 := { s2 with messages := rebuildMessagesWithKnowledge s2.knowledge s2.messages }
    let snap : StepSnapshot :=
      ⟨s3.metrics.llmCalls, s3.messages.length,
       s3.metrics.totalInputTokens + s3.metrics.totalOutputTokens,
       s3.metrics.compressions, now⟩
    let s4 := { s3 with metrics := { s3.metrics with trajectory := s3.metrics.trajectory ++ [snap] } }
    let s5 := { s4 with messages := s4.messages ++ [userMsg (continuationText focus.description focusData)] }
    (⟨true,
      "Focus " ++ squote ++ focus.description ++ squote ++ " completed. Dropped " ++
        toString messagesToDrop ++ " messages. Learnings preserved in KNOWLEDGE section.",
      none, true⟩, s5)

/-! ## Run loop, from `FocusAgent.run`, `FocusAgent._execute_tool_with_focus`
and `BaselineAgent` (`src/agents/baseline.py`) -/

/-- What `BaselineAgent._call_llm` returns, together with the token usage it
adds to the metrics. -/
structure LlmResponse where
  content : String
  toolCalls : List ToolCall
  inputTokens : Nat
  outputTokens : Nat

/-- The external collaborators of one run: the inference provider (a
response for each step, possibly depending on the transmitted buffer), the
non-focus tools registered with the agent (`none` means no tool of that name
is registered), and the wall clock (indexed by an abstract event counter). -/
structure Oracle where
  respond : Nat → List Message → LlmResponse
  externTool : String → List (String × String) → Option ToolResult
  clock : Nat → Nat

/-- `self.metrics.tool_calls += 1` in `Agent._execute_tool`. -/
def bumpToolCalls (s : AgentState) : AgentState :=
  { s with metrics := { s.metrics with toolCalls := s.metrics.toolCalls + 1 } }

/-- The metric updates of `_call_llm`: one more LLM call and the token
usage of the response. -/
def bumpLlm (inTok outTok : Nat) (s : AgentState) : AgentState :=
  { s with metrics := { s.metrics with
      llmCalls := s.metrics.llmCalls + 1,
      totalInputTokens := s.metrics.totalInputTokens + inTok,
      totalOutputTokens := s.metrics.totalOutputTokens + outTok } }

/-- `Agent._add_message`. -/
def addMessage (m : Message) (s : AgentState) : AgentState :=
  { s with messages := s.messages ++ [m] }

/-- The after-inference trajectory snapshot appended in `FocusAgent.run`. -/
def recordStepSnapshot (step now : Nat) (s : AgentState) : AgentState :=
  { s with metrics := { s.metrics with trajectory := s.metrics.trajectory ++
      [⟨step, s.messages.length,
        s.metrics.totalInputTokens + s.metrics.totalOutputTokens,
        s.metrics.compressions, now⟩] } }

/-- `Agent._execute_tool`: look the tool up by name and execute it.  The
agent's tool list is the constructor-supplied tools followed by the two
focus tools, and `_get_tool_by_name` returns the first match, so an external
tool shadows a focus tool of the same name.  An unknown tool fails without
counting a tool call.  (A call with missing required arguments raises
`TypeError` in Python; it is modelled as a failed result and is exercised by
no theorem.) -/
def executeTool (oracle : Oracle) (name : String) (args : List (String × String))
    (s : AgentState) : ToolResult × AgentState :=
  match oracle.externTool name args with
  | some r => (r, bumpToolCalls s)
  | none =>
    if name = "start_focus" then
      match args.lookup "description", args.lookup "goal" with
      | some d, some g => (startFocusExecute d g, bumpToolCalls s)
      | _, _ => (⟨false, "", some "TypeError", false⟩, bumpToolCalls s)
    else if name = "complete_focus" then
      match args.lookup "outcome", args.lookup "learnings" with
      | some o, some l =>
        (completeFocusExecute o l ((args.lookup "next_action").getD ""), bumpToolCalls s)
      | _, _ => (⟨false, "", some "TypeError", false⟩, bumpToolCalls s)
    else (⟨false, "", some ("Unknown tool: " ++ name), false⟩, s)

/-- `FocusAgent._execute_tool_with_focus`: execute the tool, then intercept
the reserved tagged-string signals.  The unused `tool_call_id` parameter of
the Python method is omitted. -/
def executeToolWithFocus (oracle : Oracle) (name : String)
    (args : List (String × String)) (s : AgentState) : ToolResult × AgentState :=
  let (result, s1) := executeTool oracle name args s
  if result.success ∧ result.output ≠ "" then
    match parseFocusStart result.output with
    | some (description, goal) =>
      (⟨true, "Focus started: " ++ description ++ "\nGoal: " ++ goal ++
          "\n\nProceeding with investigation...", none, false⟩,
       handleStartFocus description goal s1)
    | none =>
      match parseFocusComplete result.output with
      | some focusData =>
        handleCompleteFocus focusData (oracle.clock s1.metrics.trajectory.length) s1
      | none => (result, s1)
  else (result, s1)

/-- The content of the tool-result turn appended by the run loop:
`result.output if result.success else f"Error: {result.error}"` (a `None`
error prints as `"None"`). -/
def toolTurnContent (r : ToolResult) : String :=
  if r.success then r.output else "Error: " ++ (r.error.getD "None")

/-- The `for tool_call in response.tool_calls` loop of `FocusAgent.run`:
dispatch each call in order; on a compression signal stop processing the
batch at once (no tool-result turn is appended for that call), otherwise
append the tool-result turn.  Returns the `focus_completed` flag. -/
def processBatch (oracle : Oracle) : List ToolCall → AgentState → AgentState × Bool
  | [], s => (s, false)
  | tc :: rest, s =>
    let (result, s1) := executeToolWithFocus oracle tc.name tc.arguments s
    if result.isCompression then (s1, true)
    else processBatch oracle rest (addMessage (toolMsg (toolTurnContent result) tc.id tc.name) s1)

/-- What the run loop returns: `TaskResult` from `src/agents/base.py`
without the metrics dict, which is read off the final `AgentState` by
`_metrics_to_dict`. -/
structure RunTaskResult where
  success : Bool
  output : String
  error : Option String
deriving DecidableEq

/-- `self.metrics.wall_time_seconds = time.time() - start_time`. -/
def setWallTime (oracle : Oracle) (s : AgentState) : AgentState :=
  { s with metrics := { s.metrics with wallTimeSeconds := oracle.clock s.metrics.trajectory.length } }

/-- The `for step in range(self.max_steps)` loop of `FocusAgent.run`,
with `fuel` steps remaining and `step` the current index.  The third
component of the result counts the compression events of the run (batches
that ended on a compression signal); it is recorded for the specification
only and influences nothing. -/
def runSteps (oracle : Oracle) : Nat → Nat → AgentState → RunTaskResult × AgentState × Nat
  | _, 0, s =>
    (⟨false, "Max steps reached without completing task.", some "max_steps_exceeded"⟩,
     setWallTime oracle s, 0)
  | step, fuel + 1, s =>
    let r := oracle.respond step s.messages
    let s1 := addMessage (assistantMsg r.content r.toolCalls) (bumpLlm r.inputTokens r.outputTokens s)
    let s2 := recordStepSnapshot step (oracle.clock s1.metrics.trajectory.length) s1
    if containsSub "TASK_COMPLETE".data r.content.data then
      (⟨true, r.content, none⟩, setWallTime oracle s2, 0)
    else if r.toolCalls.isEmpty then
      runSteps oracle (step + 1) fuel
        (addMessage (userMsg "Continue working on the task. Use tools to make progress.") s2)
    else
      let (s3, completed) := processBatch oracle r.toolCalls s2
      let rec3 := runSteps oracle (step + 1) fuel s3
      (rec3.1, rec3.2.1, (if completed then 1 else 0) + rec3.2.2)

/-- The system prompt built in `FocusAgent.run` (byte-for-byte, including
the line consisting of two spaces and the trailing newline). -/
def systemPromptText (workspace : String) : String :=
  "You are an expert software engineer. Your task is to solve the following problem.\n\nWorkspace: "
    ++ workspace ++
    "\n\n## Tools for Organizing Your Work\n\nYou have access to `start_focus` and `complete_focus` tools:\n\n"
    ++
    "- **start_focus**: Use when beginning a distinct line of investigation or implementation.\n  This helps you organize your work and enables efficient context management.\n  \n"
    ++
    "- **complete_focus**: Use when you" ++ squote ++ "ve finished investigating something. This:\n  - Saves your key learnings to persistent knowledge\n  - Compresses your detailed work (you keep the learnings)\n  - Gives you a fresh context for the next focus\n\n"
    ++
    "Use these especially when:\n- Exploring unfamiliar parts of the codebase\n- Trying different approaches that might not work out\n- Working on multi-step tasks with distinct phases\n\n"
    ++
    "## Completing the Task\n\nWhen you" ++ squote ++ "re done with the entire task, respond with TASK_COMPLETE and a summary of what you did.\n"

/-- `FocusAgent.run`: reset, install the system and task turns, and run the
step loop. -/
def run (oracle : Oracle) (maxSteps : Nat) (task workspace : String) :
    RunTaskResult × AgentState × Nat :=
  runSteps oracle 0 maxSteps
    (addMessage (userMsg task) (addMessage (sysMsg (systemPromptText workspace)) initialState))

/-! ## The tool-pairing invariant (§3 of the spec) -/

/-- `msgs` begins with exactly the result turns of the given requested
actions: one `tool` turn per action, carrying that action id, in order. -/
def resultsFor : List ToolCall → List Message → Bool
  | [], [] => true
  | tc :: tcs, m :: ms =>
    m.role == MessageRole.tool && m.toolCallId == some tc.id && resultsFor tcs ms
  | _, _ => false

/-- The tool-pairing invariant: the buffer decomposes into system, user and
assistant turns, where every assistant turn is immediately followed by
exactly the matching result turns of its requested actions, and `tool`
turns occur nowhere else (every `tool` turn answers the immediately
preceding assistant turn).  Since a derivation for the remainder can never
start with a `tool` turn, the turn after a completed pairing group is never
a `tool` turn. -/
inductive ToolPairing : List Message → Prop where
  | nil : ToolPairing []
  | plain (m : Message) (rest : List Message) :
      m.role ≠ MessageRole.tool → m.role ≠ MessageRole.assistant →
      ToolPairing rest → ToolPairing (m :: rest)
  | group (m : Message) (grp rest : List Message) :
      m.role = MessageRole.assistant →
      resultsFor m.toolCalls grp = true →
      ToolPairing rest → ToolPairing (m :: (grp ++ rest))

/-! ## The safe-index computation as worded by the spec (§4.4 step 4).
These two definitions follow the specification text, not the source; they
exist only to be compared against `findSafeTruncationPoint`. -/

/-- Modelled from the spec: index `j` qualifies as a safe truncation index
when it is (a) immediately after a `user` turn, or (b) immediately after
the last `tool-result` turn of a completed pairing group, i.e. the turn at
`j - 1` is a tool result and the following turn, if any, is not. -/
def specGoodIndex (messages : List Message) (j : Nat) : Bool :=
  match messages[j - 1]? with
  | none => false
  | some m =>
    m.role == MessageRole.user ||
      (m.role == MessageRole.tool && nextNotTool messages (j - 1))

/-- Modelled from the spec: scan backward from index `j` toward the
protected minimum (index 2, just after the initial system and task turns),
returning the first qualifying index, or the protected minimum when none
is found before it. -/
def specScan (messages : List Message) : Nat → Nat
  | 0 => 2
  | 1 => 2
  | 2 => 2
  | j + 3 => if specGoodIndex messages (j + 3) then j + 3 else specScan messages (j + 2)

/-- Modelled from the spec: the safe truncation index for a candidate
(anchor) index. -/
def specSafeIndex (messages : List Message) (candidate : Nat) : Nat :=
  specScan messages candidate

/-! ## Round-trip condition for the `"::"`-tagged encoding -/

/-- `cleanSep cs` holds when `cs` neither contains the two-character
separator `"::"` nor ends in `':'` — exactly the condition under which a
field followed by the `"::"` separator is recovered intact by a
left-to-right split. -/
def cleanSep : List Char → Bool
  | [] => true
  | [c] => c != ':'
  | c :: c2 :: rest => !(c == ':' && c2 == ':') && cleanSep (c2 :: rest)

/-! ## Trajectory monotonicity (the invariant behind §8 "Trajectory
consistency") -/

/-- The recorded cumulative-compressions values never decrease from one
snapshot to the next. -/
def trajectoryMonotone (traj : List StepSnapshot) : Prop :=
  List.Chain' (fun a b => a.compressionsSoFar ≤ b.compressionsSoFar) traj

/-- Run-loop invariant: the trajectory is monotone and its last snapshot
does not exceed the live compression counter. -/
def trajMono (s : AgentState) : Prop :=
  trajectoryMonotone s.metrics.trajectory ∧
    ∀ x ∈ s.metrics.trajectory.getLast?, x.compressionsSoFar ≤ s.metrics.compressions

/-! ## Concrete fixtures used by witnesses and counterexamples -/

/-- A successful result of a generic external tool. -/
def probeResult : ToolResult := ⟨true, "ok", none, false⟩

/-- A buffer whose candidate turn (index 3) is a `user` turn: used to
compare the source scan with the spec wording. -/
def c2Msgs : List Message :=
  [sysMsg "s", userMsg "t", assistantMsg "a" [], userMsg "u"]

/-- Script for the §8 scenario: step 0 opens focus "A", steps 1-3 each make
one tool-call/result pair, step 4 closes the focus with outcome `success`
and learnings "X", step 5 signals completion. -/
def c4Oracle : Oracle where
  respond := fun step _ =>
    if step = 0 then ⟨"", [⟨"t1", "start_focus", [("description", "A"), ("goal", "G")]⟩], 10, 5⟩
    else if step = 4 then
      ⟨"", [⟨"t5", "complete_focus", [("outcome", "success"), ("learnings", "X")]⟩], 10, 5⟩
    else if step = 5 then ⟨"TASK_COMPLETE done", [], 10, 5⟩
    else ⟨"", [⟨"t" ++ toString step, "probe", []⟩], 10, 5⟩
  externTool := fun n _ => if n = "probe" then some probeResult else none
  clock := fun k => k

/-- A start-of-run state with short initial system and task turns (the §8
scenarios constrain only the presence of the two initial turns, not the
prompt wording; short texts keep the closed evaluations shallow). -/
def scenarioInit : AgentState :=
  addMessage (userMsg "T") (addMessage (sysMsg "SYS") initialState)

/-- The §8 scenario run. -/
def c4Run : RunTaskResult × AgentState × Nat := runSteps c4Oracle 0 8 scenarioInit

/-- Script in which one assistant turn requests `start_focus` and
`complete_focus` in the same batch. -/
def sameBatchOracle : Oracle where
  respond := fun step _ =>
    if step = 0 then
      ⟨"", [⟨"t1", "start_focus", [("description", "A"), ("goal", "G")]⟩,
            ⟨"t2", "complete_focus", [("outcome", "success"), ("learnings", "L")]⟩], 0, 0⟩
    else ⟨"", [], 0, 0⟩
  externTool := fun _ _ => none
  clock := fun k => k

/-- The same-batch run (one step). -/
def sameBatchRun : RunTaskResult × AgentState × Nat := runSteps sameBatchOracle 0 1 scenarioInit

/-- A well-paired buffer with one completed tool group. -/
def c1Msgs : List Message :=
  [sysMsg "s", userMsg "t", assistantMsg "go" [⟨"a1", "probe", []⟩],
   toolMsg "ok" "a1" "probe", userMsg "u"]

/-- A state with no active focus. -/
def emptyStackState : AgentState :=
  ⟨[sysMsg "s", userMsg "t"], [], [], ⟨0, 0, 0, 0, 0, 0, 0, []⟩⟩

/-- A system turn whose pre-marker portion ends in whitespace. -/
def c6Msgs : List Message := [sysMsg "A \n## KNOWLEDGE old", userMsg "t"]

/-- A one-entry ledger. -/
def c6Knowledge : List KnowledgeEntry := [⟨"D", "G", "success", "L"⟩]


/-- Two states sharing one ledger but differing everywhere else. -/
def c7StateA : AgentState := ⟨[], [], c6Knowledge, ⟨0, 0, 0, 0, 0, 0, 0, []⟩⟩

/-- See `c7StateA`. -/
def c7StateB : AgentState := ⟨c1Msgs, [⟨"d", "g", 3⟩], c6Knowledge, ⟨9, 9, 9, 9, 9, 9, 9, []⟩⟩


/-- The portion of a system-turn text preceding the first occurrence of the
knowledge marker (the whole text when the marker is absent); the spec's
"portion of the system turn preceding the marker". -/
def preMarkerPortion (s : String) : String :=
  match splitFirst knowledgeMarker.data s.data with
  | some (pre, _) => String.mk pre
  | none => s


/-- A state in mid-run: well-paired buffer of five turns, one open focus
anchored at 3. -/
def c5State : AgentState := ⟨c1Msgs, [⟨"A", "G", 3⟩], [], ⟨0, 0, 0, 0, 0, 0, 0, []⟩⟩

/-- The default snapshot used only as a `getD` fallback in closed
statements. -/
def zeroSnap : StepSnapshot := ⟨0, 0, 0, 0, 0⟩

/-! # Theorems -/

/-! ## Lemmas on the list-level string primitives -/

theorem colons_data : "::".data = [':', ':'] := rfl

theorem cleanSep_tail {c : Char} {d : List Char} (h : cleanSep (c :: d) = true) :
    cleanSep d = true := by
  cases d with
  | nil => rfl
  | cons c2 d2 =>
    simp only [cleanSep, Bool.and_eq_true] at h
    exact h.2

theorem splitFirst_sep_of_cleanSep (d rest : List Char) (h : cleanSep d = true) :
    splitFirst [':', ':'] (d ++ ':' :: ':' :: rest) = some (d, rest) := by
  induction d with
  | nil => simp [splitFirst, List.isPrefixOf]
  | cons c d ih =>
    have hd : cleanSep d = true := cleanSep_tail h
    have hpre : List.isPrefixOf [':', ':'] (c :: (d ++ ':' :: ':' :: rest)) = false := by
      by_cases hc : c = ':'
      · subst hc
        cases d with
        | nil => simp [cleanSep] at h
        | cons c2 d2 =>
          simp only [cleanSep, Bool.and_eq_true, Bool.not_eq_true',
            Bool.and_eq_false_iff, beq_eq_false_iff_ne, beq_iff_eq] at h
          have hc2 : c2 ≠ ':' := by
            rcases h.1 with h1 | h1
            · exact absurd rfl h1
            · exact h1
          simp [List.isPrefixOf, hc2, Ne.symm hc2]
      · simp [List.isPrefixOf, Ne.symm hc]
    rw [List.cons_append]
    simp only [splitFirst, hpre, Bool.false_eq_true, if_false, ih hd]

theorem parseFocusStart_roundTrip (d g : String) (hd : cleanSep d.data = true) :
    parseFocusStart (startFocusExecute d g).output = some (d, g) := by
  have hout : (startFocusExecute d g).output.data
      = "FOCUS_START".data ++ ':' :: ':' :: (d.data ++ ':' :: ':' :: g.data) := by
    simp [startFocusExecute, String.data_append]
  have hfs : cleanSep "FOCUS_START".data = true := by decide
  have hpre : "FOCUS_START::".data.isPrefixOf (startFocusExecute d g).output.data = true := by
    rw [hout]
    have : "FOCUS_START::".data = "FOCUS_START".data ++ [':', ':'] := by decide
    rw [this]
    simp [List.isPrefixOf_iff_prefix, List.append_assoc]
  have hsplit1 : splitFirst "::".data (startFocusExecute d g).output.data
      = some ("FOCUS_START".data, d.data ++ ':' :: ':' :: g.data) := by
    rw [colons_data, hout]
    exact splitFirst_sep_of_cleanSep _ _ hfs
  have hsplit2 : splitFirst "::".data (d.data ++ ':' :: ':' :: g.data)
      = some (d.data, g.data) := by
    rw [colons_data]
    exact splitFirst_sep_of_cleanSep _ _ hd
  unfold parseFocusStart
  rw [hpre]
  simp only [if_true]
  unfold pySplit
  rw [hsplit1]
  simp only []
  unfold pySplit
  rw [hsplit2]
  simp only [pySplit]
  simp [List.getD]

theorem parseFocusComplete_roundTrip (o l n : String)
    (ho : cleanSep o.data = true) (hl : cleanSep l.data = true) :
    parseFocusComplete (completeFocusExecute o l n).output = some ⟨o, l, n⟩ := by
  have hout : (completeFocusExecute o l n).output.data
      = "FOCUS_COMPLETE".data ++ ':' :: ':' ::
          (o.data ++ ':' :: ':' :: (l.data ++ ':' :: ':' :: n.data)) := by
    simp [completeFocusExecute, String.data_append]
  have hfs : cleanSep "FOCUS_COMPLETE".data = true := by decide
  have hpre : "FOCUS_COMPLETE::".data.isPrefixOf (completeFocusExecute o l n).output.data = true := by
    rw [hout]
    have : "FOCUS_COMPLETE::".data = "FOCUS_COMPLETE".data ++ [':', ':'] := by decide
    rw [this]
    simp [List.isPrefixOf_iff_prefix, List.append_assoc]
  have hsplit1 : splitFirst "::".data (completeFocusExecute o l n).output.data
      = some ("FOCUS_COMPLETE".data,
          o.data ++ ':' :: ':' :: (l.data ++ ':' :: ':' :: n.data)) := by
    rw [colons_data, hout]
    exact splitFirst_sep_of_cleanSep _ _ hfs
  have hsplit2 : splitFirst "::".data (o.data ++ ':' :: ':' :: (l.data ++ ':' :: ':' :: n.data))
      = some (o.data, l.data ++ ':' :: ':' :: n.data) := by
    rw [colons_data]
    exact splitFirst_sep_of_cleanSep _ _ ho
  have hsplit3 : splitFirst "::".data (l.data ++ ':' :: ':' :: n.data)
      = some (l.data, n.data) := by
    rw [colons_data]
    exact splitFirst_sep_of_cleanSep _ _ hl
  unfold parseFocusComplete
  rw [hpre]
  simp only [if_true]
  unfold pySplit
  rw [hsplit1]
  simp only []
  unfold pySplit
  rw [hsplit2]
  simp only []
  unfold pySplit
  rw [hsplit3]
  simp only [pySplit]
  simp [List.getD]

/-! ## Claim C9: round-tripping of the tagged-string encoding -/

/-- C9, as stated, is false: the encoding is ambiguous when a non-final
field contains the separator.  For `description = "a::b"`, `goal = "g"`,
parsing the `StartFocusTool.execute` output yields `("a", "b::g")`, not
`("a::b", "g")`. -/
theorem c9_roundtrip_counterexample :
    parseFocusStart (startFocusExecute "a::b" "g").output = some ("a", "b::g") ∧
      parseFocusStart (startFocusExecute "a::b" "g").output ≠ some ("a::b", "g") := by
  constructor
  · decide
  · decide

/-- C9 (amended): the reserved tagged-string encoding round-trips provided
each non-final field (`description`; `outcome` and `learnings`) neither
contains `"::"` nor ends in `':'`; the final fields (`goal`,
`next_action`) are unrestricted. -/
theorem c9_roundtrip_clean (d g o l n : String)
    (hd : cleanSep d.data = true) (ho : cleanSep o.data = true)
    (hl : cleanSep l.data = true) :
    parseFocusStart (startFocusExecute d g).output = some (d, g) ∧
      parseFocusComplete (completeFocusExecute o l n).output = some ⟨o, l, n⟩ :=
  ⟨parseFocusStart_roundTrip d g hd, parseFocusComplete_roundTrip o l n ho hl⟩

/-- Witness for `c9_roundtrip_clean` at concrete fields (the final fields
even contain the separator). -/
theorem c9_roundtrip_clean_witness :
    parseFocusStart (startFocusExecute "explore" "find::keys").output
        = some ("explore", "find::keys") ∧
      parseFocusComplete (completeFocusExecute "success" "config in env" "next::step").output
        = some ⟨"success", "config in env", "next::step"⟩ :=
  c9_roundtrip_clean "explore" "find::keys" "success" "config in env" "next::step"
    (by decide) (by decide) (by decide)

/-! ## Claim C7: rendering is a pure function of the ledger contents -/

/-- C7: `_build_knowledge_section` reads nothing but the ordered ledger, so
two agent states with the same ledger render byte-identical preambles; in
particular repeated renderings of one unchanged ledger coincide. -/
theorem c7_render_pure (s1 s2 : AgentState) (h : s1.knowledge = s2.knowledge) :
    buildKnowledgeSection s1.knowledge = buildKnowledgeSection s2.knowledge := by
  rw [h]

/-- Witness for `c7_render_pure`: states with different buffers, stacks and
metrics but one ledger. -/
theorem c7_render_pure_witness :
    buildKnowledgeSection c7StateA.knowledge = buildKnowledgeSection c7StateB.knowledge :=
  c7_render_pure c7StateA c7StateB rfl

/-! ## Claim C2: the safe-index computation versus the spec wording -/

theorem safeScan_eq_specScan (msgs : List Message) :
    ∀ i, 2 ≤ i → safeScan msgs i = specScan msgs (i + 1) := by
  intro i
  induction i using Nat.strong_induction_on with
  | _ i ih =>
    intro h2
    obtain ⟨k, rfl⟩ : ∃ k, i = k + 2 := ⟨i - 2, by omega⟩
    have hrec : safeScan msgs (k + 1) = specScan msgs (k + 2) := by
      cases k with
      | zero => rfl
      | succ k2 => exact ih (k2 + 2) (by omega) (by omega)
    have hidx : k + 3 - 1 = k + 2 := by omega
    cases hm : msgs[k + 2]? with
    | none =>
      simp only [safeScan, hm, specScan, specGoodIndex, hidx]
      simp [hrec]
    | some m =>
      by_cases hu : m.role = MessageRole.user
      · simp [safeScan, hm, hu, specScan, specGoodIndex, hidx]
      · by_cases ht : m.role = MessageRole.tool
        · cases hnt : nextNotTool msgs (k + 2) with
          | true =>
            simp [safeScan, hm, hu, ht, hnt, specScan, specGoodIndex, hidx, beq_iff_eq]
          | false =>
            simp [safeScan, hm, hu, ht, hnt, specScan, specGoodIndex, hidx, hrec, beq_iff_eq]
        · simp [safeScan, hm, hu, ht, specScan, specGoodIndex, hidx, hrec, beq_iff_eq]

theorem safeScan_le (msgs : List Message) :
    ∀ i, 1 ≤ i → safeScan msgs i ≤ i + 1 := by
  intro i
  induction i using Nat.strong_induction_on with
  | _ i ih =>
    intro h1
    match i, h1 with
    | 1, _ => simp [safeScan]
    | (k + 2), _ =>
      have hrec : safeScan msgs (k + 1) ≤ k + 2 := ih (k + 1) (by omega) (by omega)
      cases hm : msgs[k + 2]? with
      | none =>
        simp only [safeScan, hm]
        omega
      | some m =>
        by_cases hu : m.role = MessageRole.user
        · simp [safeScan, hm, hu]
        · by_cases hcond : m.role = MessageRole.tool ∧ nextNotTool msgs (k + 2)
          · simp [safeScan, hm, hu, hcond]
          · simp only [safeScan, hm, if_neg hu, if_neg hcond]
            omega

/-- C2, as stated, is false: with a `user` turn at the candidate index
itself, the source scan (which examines the candidate position first)
returns candidate + 1, while the spec wording (scan backward *from* the
candidate) yields the protected minimum; in particular the safe index
exceeds the candidate. -/
theorem c2_safe_index_counterexample :
    findSafeTruncationPoint c2Msgs 3 = 4 ∧ specSafeIndex c2Msgs 3 = 2 ∧
      ¬ findSafeTruncationPoint c2Msgs 3 ≤ 3 := by
  refine ⟨by decide, by decide, by decide⟩

/-- C2 (amended): for candidates above the protected minimum, the source's
safe index equals the spec's backward scan started one position higher (at
candidate + 1, so the candidate turn itself is examined first), and is
therefore bounded by candidate + 1 rather than by the candidate. -/
theorem c2_safe_index_shifted (msgs : List Message) (c : Nat) (h : 2 < c) :
    findSafeTruncationPoint msgs c = specScan msgs (c + 1) ∧
      findSafeTruncationPoint msgs c ≤ c + 1 := by
  have h1 : ¬ c ≤ 2 := by omega
  unfold findSafeTruncationPoint
  rw [if_neg h1]
  exact ⟨safeScan_eq_specScan msgs c (by omega), safeScan_le msgs c (by omega)⟩

/-- Witness for `c2_safe_index_shifted` on the concrete buffer. -/
theorem c2_safe_index_shifted_witness :
    findSafeTruncationPoint c2Msgs 3 = specScan c2Msgs 4 ∧
      findSafeTruncationPoint c2Msgs 3 ≤ 4 :=
  c2_safe_index_shifted c2Msgs 3 (by omega)

/-! ## Claim C6: the knowledge-preamble splice -/

theorem pyRstrip_decomposition (s : String) :
    ∃ w : String, s = pyRstrip s ++ w ∧ ∀ c ∈ w.data, isPyWhitespace c = true := by
  refine ⟨String.mk ((s.data.reverse.takeWhile isPyWhitespace).reverse), ?_, ?_⟩
  · have hdata : (pyRstrip s ++ String.mk ((s.data.reverse.takeWhile isPyWhitespace).reverse)).data
        = s.data := by
      show (s.data.reverse.dropWhile isPyWhitespace).reverse
          ++ (s.data.reverse.takeWhile isPyWhitespace).reverse = s.data
      rw [← List.reverse_append, List.takeWhile_append_dropWhile, List.reverse_reverse]
    exact (String.ext hdata).symm
  · intro c hc
    have hc2 : c ∈ s.data.reverse.takeWhile isPyWhitespace := by
      rw [← List.mem_reverse]
      exact hc
    exact List.mem_takeWhile_imp hc2

/-- C6, as stated, is false: the splice passes the pre-marker portion
through Python's `rstrip`, so a pre-marker portion with trailing whitespace
does not survive byte-for-byte.  Here the old system turn is
`"A \n## KNOWLEDGE old"`, whose pre-marker portion `"A \n"` is not a prefix
of the spliced system turn. -/
theorem c6_splice_counterexample :
    preMarkerPortion (sysMsg "A \n## KNOWLEDGE old").content = "A \n" ∧
      "A \n".data.isPrefixOf
          (((rebuildMessagesWithKnowledge c6Knowledge c6Msgs).headD (sysMsg "")).content).data
        = false := by
  refine ⟨by decide, by decide⟩

/-- C6 (amended): the splice removes any prior preamble and appends the
freshly rendered one after a blank line; turns other than the system turn
are not modified; the portion preceding the marker survives only up to the
stripping of trailing whitespace (`w` below, empty whenever the marker was
present, consists of whitespace only). -/
theorem c6_splice_strips_trailing_whitespace (m0 : Message) (rest : List Message)
    (k : List KnowledgeEntry) (hrest : rest ≠ []) (hk : buildKnowledgeSection k ≠ "") :
    ∃ w : String,
      rebuildMessagesWithKnowledge k (m0 :: rest)
          = sysMsg ((pyRstrip (preMarkerPortion m0.content) ++ w) ++ "\n\n"
              ++ buildKnowledgeSection k) :: rest ∧
        (∀ c ∈ w.data, isPyWhitespace c = true) ∧
        (containsSub knowledgeMarker.data m0.content.data = true → w = "") := by
  have hlen : ¬ (m0 :: rest).length < 2 := by
    cases rest with
    | nil => exact absurd rfl hrest
    | cons a t => simp
  cases hsp : splitFirst knowledgeMarker.data m0.content.data with
  | some pp =>
    obtain ⟨pre, post⟩ := pp
    refine ⟨"", ?_, by simp, fun _ => rfl⟩
    have hpm : preMarkerPortion m0.content = String.mk pre := by
      unfold preMarkerPortion
      rw [hsp]
    simp only [rebuildMessagesWithKnowledge, if_neg hlen, hsp, if_neg hk, hpm]
    rw [String.append_empty]
  | none =>
    obtain ⟨w, hw, hws⟩ := pyRstrip_decomposition m0.content
    have hpm : preMarkerPortion m0.content = m0.content := by
      unfold preMarkerPortion
      rw [hsp]
    refine ⟨w, ?_, hws, ?_⟩
    · simp only [rebuildMessagesWithKnowledge, if_neg hlen, hsp, if_neg hk, hpm]
      rw [← hw]
    · intro hcon
      rw [containsSub, hsp] at hcon
      simp at hcon

/-- Witness for `c6_splice_strips_trailing_whitespace` on the concrete
marker-bearing buffer. -/
theorem c6_splice_witness :
    ∃ w : String,
      rebuildMessagesWithKnowledge c6Knowledge c6Msgs
          = sysMsg ((pyRstrip (preMarkerPortion (sysMsg "A \n## KNOWLEDGE old").content) ++ w)
              ++ "\n\n" ++ buildKnowledgeSection c6Knowledge) :: [userMsg "t"] ∧
        (∀ c ∈ w.data, isPyWhitespace c = true) ∧
        (containsSub knowledgeMarker.data (sysMsg "A \n## KNOWLEDGE old").content.data = true →
          w = "") :=
  c6_splice_strips_trailing_whitespace (sysMsg "A \n## KNOWLEDGE old") [userMsg "t"]
    c6Knowledge (by decide) (by decide)

/-! ## Claim C1: truncation preserves the tool-pairing invariant -/

theorem resultsFor_role : ∀ (tcs : List ToolCall) (grp : List Message),
    resultsFor tcs grp = true → ∀ m ∈ grp, m.role = MessageRole.tool := by
  intro tcs
  induction tcs with
  | nil =>
    intro grp h m hm
    cases grp with
    | nil => simp at hm
    | cons g gs => simp [resultsFor] at h
  | cons tc tcs ih =>
    intro grp h m hm
    cases grp with
    | nil => simp at hm
    | cons g gs =>
      simp only [resultsFor, Bool.and_eq_true, beq_iff_eq] at h
      rcases List.mem_cons.mp hm with rfl | hmem
      · exact h.1.1
      · exact ih gs h.2 m hmem

theorem toolPairing_take_user {l : List Message} (h : ToolPairing l) :
    ∀ i msg, l[i]? = some msg → msg.role = MessageRole.user →
      ToolPairing (l.take (i + 1)) := by
  induction h with
  | nil => intro i msg hget _; simp at hget
  | plain m rest hm hma hrest ih =>
    intro i msg hget hrole
    cases i with
    | zero =>
      rw [List.take_succ_cons, List.take_zero]
      exact ToolPairing.plain m [] hm hma ToolPairing.nil
    | succ j =>
      rw [List.getElem?_cons_succ] at hget
      rw [List.take_succ_cons]
      exact ToolPairing.plain m _ hm hma (ih j msg hget hrole)
  | group m grp rest hrole hres hrest ih =>
    intro i msg hget hu
    rcases Nat.lt_or_ge i (grp.length + 1) with hi | hi
    · exfalso
      cases i with
      | zero =>
        rw [List.getElem?_cons_zero] at hget
        have hmm : m = msg := Option.some.inj hget
        rw [← hmm, hrole] at hu
        exact MessageRole.noConfusion hu
      | succ j =>
        have hj : j < grp.length := by omega
        rw [List.getElem?_cons_succ, List.getElem?_append_left hj] at hget
        have htl := resultsFor_role _ _ hres msg (List.getElem?_mem hget)
        rw [htl] at hu
        exact MessageRole.noConfusion hu
    · obtain ⟨j, rfl⟩ : ∃ j, i = grp.length + 1 + j := ⟨i - (grp.length + 1), by omega⟩
      rw [show grp.length + 1 + j = (grp.length + j) + 1 by omega, List.getElem?_cons_succ,
        List.getElem?_append_right (by omega : grp.length ≤ grp.length + j),
        show grp.length + j - grp.length = j by omega] at hget
      have hrec := ih j msg hget hu
      rw [show grp.length + 1 + j + 1 = (grp.length + (j + 1)) + 1 by omega,
        List.take_succ_cons, List.take_append_eq_append_take,
        List.take_of_length_le (by omega : grp.length ≤ grp.length + (j + 1)),
        show grp.length + (j + 1) - grp.length = j + 1 by omega]
      exact ToolPairing.group m grp _ hrole hres hrec

theorem toolPairing_take_tool {l : List Message} (h : ToolPairing l) :
    ∀ i msg, l[i]? = some msg → msg.role = MessageRole.tool →
      (∀ m2, l[i + 1]? = some m2 → m2.role ≠ MessageRole.tool) →
      ToolPairing (l.take (i + 1)) := by
  induction h with
  | nil => intro i msg hget _ _; simp at hget
  | plain m rest hm hma hrest ih =>
    intro i msg hget hrole hnext
    cases i with
    | zero =>
      rw [List.getElem?_cons_zero] at hget
      have hmm : m = msg := Option.some.inj hget
      rw [← hmm] at hrole
      exact absurd hrole hm
    | succ j =>
      rw [List.getElem?_cons_succ] at hget
      have hnext2 : ∀ m2, rest[j + 1]? = some m2 → m2.role ≠ MessageRole.tool := by
        intro m2 hg2
        exact hnext m2 (by rw [List.getElem?_cons_succ]; exact hg2)
      rw [List.take_succ_cons]
      exact ToolPairing.plain m _ hm hma (ih j msg hget hrole hnext2)
  | group m grp rest hrole hres hrest ih =>
    intro i msg hget htool hnext
    rcases Nat.lt_or_ge i (grp.length + 1) with hi | hi
    · cases i with
      | zero =>
        rw [List.getElem?_cons_zero] at hget
        have hmm : m = msg := Option.some.inj hget
        rw [← hmm, hrole] at htool
        exact absurd htool (by decide)
      | succ j =>
        have hj : j < grp.length := by omega
        rcases Nat.lt_or_ge (j + 1) grp.length with hj2 | hj2
        · exfalso
          have hy := List.getElem?_eq_getElem hj2
          have hrole2 := resultsFor_role _ _ hres _ (List.getElem?_mem hy)
          exact hnext _ (by
            rw [List.getElem?_cons_succ, List.getElem?_append_left hj2]
            exact hy) hrole2
        · rw [List.take_succ_cons, List.take_append_eq_append_take,
            List.take_of_length_le (by omega : grp.length ≤ j + 1),
            show j + 1 - grp.length = 0 by omega, List.take_zero]
          exact ToolPairing.group m grp [] hrole hres ToolPairing.nil
    · obtain ⟨j, rfl⟩ : ∃ j, i = grp.length + 1 + j := ⟨i - (grp.length + 1), by omega⟩
      rw [show grp.length + 1 + j = (grp.length + j) + 1 by omega, List.getElem?_cons_succ,
        List.getElem?_append_right (by omega : grp.length ≤ grp.length + j),
        show grp.length + j - grp.length = j by omega] at hget
      have hnext2 : ∀ m2, rest[j + 1]? = some m2 → m2.role ≠ MessageRole.tool := by
        intro m2 hg2
        apply hnext
        rw [show grp.length + 1 + j + 1 = (grp.length + (j + 1)) + 1 by omega,
          List.getElem?_cons_succ,
          List.getElem?_append_right (by omega : grp.length ≤ grp.length + (j + 1)),
          show grp.length + (j + 1) - grp.length = j + 1 by omega]
        exact hg2
      have hrec := ih j msg hget htool hnext2
      rw [show grp.length + 1 + j + 1 = (grp.length + (j + 1)) + 1 by omega,
        List.take_succ_cons, List.take_append_eq_append_take,
        List.take_of_length_le (by omega : grp.length ≤ grp.length + (j + 1)),
        show grp.length + (j + 1) - grp.length = j + 1 by omega]
      exact ToolPairing.group m grp _ hrole hres hrec

theorem safeScan_cases (msgs : List Message) :
    ∀ i, safeScan msgs i = 2 ∨
      ∃ j msg, 2 ≤ j ∧ msgs[j]? = some msg ∧ safeScan msgs i = j + 1 ∧
        (msg.role = MessageRole.user ∨
          (msg.role = MessageRole.tool ∧
            ∀ m2, msgs[j + 1]? = some m2 → m2.role ≠ MessageRole.tool)) := by
  intro i
  induction i using Nat.strong_induction_on with
  | _ i ih =>
    match i with
    | 0 => left; rfl
    | 1 => left; rfl
    | (k + 2) =>
      cases hm : msgs[k + 2]? with
      | none =>
        have hrec := ih (k + 1) (by omega)
        simpa [safeScan, hm] using hrec
      | some m =>
        by_cases hu : m.role = MessageRole.user
        · right
          exact ⟨k + 2, m, by omega, hm, by simp [safeScan, hm, hu], Or.inl hu⟩
        · by_cases hcond : m.role = MessageRole.tool ∧ nextNotTool msgs (k + 2)
          · right
            refine ⟨k + 2, m, by omega, hm, by simp [safeScan, hm, hu, hcond], Or.inr ⟨hcond.1, ?_⟩⟩
            intro m2 hg2
            have hnt := hcond.2
            unfold nextNotTool at hnt
            rw [hg2] at hnt
            simpa using hnt
          · have hrec := ih (k + 1) (by omega)
            simpa [safeScan, hm, hu, hcond] using hrec

/-- C1: on a buffer that satisfies the tool-pairing invariant and begins
with the initial system and task turns, every truncation computed by the
compression engine preserves the invariant, keeps at least the protected
minimum of 2 turns, and keeps the initial system and task turns themselves,
whatever the candidate index of the focus completion. -/
theorem c1_truncation_safety (m0 m1 : Message) (rest : List Message) (t : Nat)
    (h0 : m0.role = MessageRole.system) (h1 : m1.role = MessageRole.user)
    (hp : ToolPairing (m0 :: m1 :: rest)) :
    ToolPairing ((m0 :: m1 :: rest).take (findSafeTruncationPoint (m0 :: m1 :: rest) t)) ∧
      2 ≤ ((m0 :: m1 :: rest).take (findSafeTruncationPoint (m0 :: m1 :: rest) t)).length ∧
      ((m0 :: m1 :: rest).take (findSafeTruncationPoint (m0 :: m1 :: rest) t)).take 2
        = (m0 :: m1 :: rest).take 2 := by
  have htake2 : ToolPairing ((m0 :: m1 :: rest).take 2) := by
    show ToolPairing [m0, m1]
    exact ToolPairing.plain m0 [m1] (by rw [h0]; decide) (by rw [h0]; decide)
      (ToolPairing.plain m1 [] (by rw [h1]; decide) (by rw [h1]; decide) ToolPairing.nil)
  have hfind : findSafeTruncationPoint (m0 :: m1 :: rest) t = 2 ∨
      ∃ j msg, 2 ≤ j ∧ (m0 :: m1 :: rest)[j]? = some msg ∧
        findSafeTruncationPoint (m0 :: m1 :: rest) t = j + 1 ∧
        (msg.role = MessageRole.user ∨
          (msg.role = MessageRole.tool ∧
            ∀ m2, (m0 :: m1 :: rest)[j + 1]? = some m2 → m2.role ≠ MessageRole.tool)) := by
    unfold findSafeTruncationPoint
    by_cases ht : t ≤ 2
    · rw [if_pos ht]
      left
      rfl
    · rw [if_neg ht]
      exact safeScan_cases (m0 :: m1 :: rest) t
  have hk2 : 2 ≤ findSafeTruncationPoint (m0 :: m1 :: rest) t := by
    rcases hfind with h | ⟨j, msg, hj2, _, heq, _⟩
    · rw [h]
    · rw [heq]
      omega
  refine ⟨?_, ?_, ?_⟩
  · rcases hfind with h | ⟨j, msg, hj2, hget, heq, hkind⟩
    · rw [h]
      exact htake2
    · rw [heq]
      rcases hkind with hu | ⟨htl, hnx⟩
      · exact toolPairing_take_user hp j msg hget hu
      · exact toolPairing_take_tool hp j msg hget htl hnx
  · rw [List.length_take]
    have hlen : 2 ≤ (m0 :: m1 :: rest).length := by simp
    omega
  · rw [List.take_take]
    congr 1
    omega

/-- Witness for `c1_truncation_safety` on a well-paired buffer with one
completed tool group and candidate index 3. -/
theorem c1_truncation_safety_witness :
    ToolPairing (c1Msgs.take (findSafeTruncationPoint c1Msgs 3)) ∧
      2 ≤ (c1Msgs.take (findSafeTruncationPoint c1Msgs 3)).length ∧
      (c1Msgs.take (findSafeTruncationPoint c1Msgs 3)).take 2 = c1Msgs.take 2 :=
  c1_truncation_safety (sysMsg "s") (userMsg "t")
    [assistantMsg "go" [⟨"a1", "probe", []⟩], toolMsg "ok" "a1" "probe", userMsg "u"] 3
    rfl rfl
    (ToolPairing.plain _ _ (by decide) (by decide)
      (ToolPairing.plain _ _ (by decide) (by decide)
        (ToolPairing.group (assistantMsg "go" [⟨"a1", "probe", []⟩])
          [toolMsg "ok" "a1" "probe"] [userMsg "u"] rfl (by decide)
          (ToolPairing.plain _ _ (by decide) (by decide) ToolPairing.nil))))

/-! ## Claim C3: closing with no active focus -/

theorem handleCompleteFocus_emptyStack (d : FocusData) (now : Nat) (s : AgentState)
    (h : s.focusStack = []) :
    handleCompleteFocus d now s
      = (⟨false, "", some "No active focus to complete. Use start_focus first.", false⟩, s) := by
  unfold handleCompleteFocus
  rw [h]

theorem startPrefix_on_complete_false (z : List Char) :
    List.isPrefixOf "FOCUS_START::".data ("FOCUS_COMPLETE::".data ++ z) = false := rfl

theorem completeFocusExecute_data (o l n : String) :
    (completeFocusExecute o l n).output.data
      = "FOCUS_COMPLETE::".data ++ (o.data ++ (':' :: ':' :: (l.data ++ (':' :: ':' :: n.data)))) := by
  simp [completeFocusExecute, String.data_append]

theorem completeFocusExecute_output_ne (o l n : String) :
    (completeFocusExecute o l n).output ≠ "" := by
  intro hc
  have hd := congrArg String.data hc
  rw [completeFocusExecute_data] at hd
  have hcons : "FOCUS_COMPLETE::".data ++ (o.data ++ (':' :: ':' :: (l.data ++ (':' :: ':' :: n.data))))
      = 'F' :: ("OCUS_COMPLETE::".data ++ (o.data ++ (':' :: ':' :: (l.data ++ (':' :: ':' :: n.data))))) := rfl
  rw [hcons] at hd
  simp at hd

theorem parseFocusStart_on_complete (o l n : String) :
    parseFocusStart (completeFocusExecute o l n).output = none := by
  unfold parseFocusStart
  rw [completeFocusExecute_data, startPrefix_on_complete_false]
  simp

theorem splitFirst_keeps_suffix : ∀ (x y : List Char),
    ∃ pre mid, splitFirst [':', ':'] (x ++ ':' :: ':' :: y) = some (pre, mid ++ y) := by
  intro x
  induction x with
  | nil =>
    intro y
    exact ⟨[], [], by simp [splitFirst, List.isPrefixOf]⟩
  | cons c x ih =>
    intro y
    rw [List.cons_append]
    cases hpre : List.isPrefixOf [':', ':'] (c :: (x ++ ':' :: ':' :: y)) with
    | true =>
      have hdrop : (c :: (x ++ ':' :: ':' :: y)).drop 2 = ((x ++ [':', ':']).drop 1) ++ y := by
        show (x ++ ':' :: ':' :: y).drop 1 = ((x ++ [':', ':']).drop 1) ++ y
        have hgrp : x ++ ':' :: ':' :: y = (x ++ [':', ':']) ++ y := by simp
        rw [hgrp, List.drop_append_eq_append_drop,
          show 1 - (x ++ [':', ':']).length = 0 by simp, List.drop_zero]
      exact ⟨[], (x ++ [':', ':']).drop 1, by simp [splitFirst, hpre, hdrop]⟩
    | false =>
      obtain ⟨pre, mid, hm⟩ := ih y
      exact ⟨c :: pre, mid, by simp [splitFirst, hpre, hm]⟩

theorem parseFocusComplete_execute_isSome (o l n : String) :
    ∃ fd, parseFocusComplete (completeFocusExecute o l n).output = some fd := by
  have hform : (completeFocusExecute o l n).output.data
      = "FOCUS_COMPLETE".data
          ++ ':' :: ':' :: (o.data ++ ':' :: ':' :: (l.data ++ ':' :: ':' :: n.data)) := by
    rw [completeFocusExecute_data]
    rfl
  obtain ⟨pre1, mid1, h1⟩ :=
    splitFirst_keeps_suffix "FOCUS_COMPLETE".data
      (o.data ++ ':' :: ':' :: (l.data ++ ':' :: ':' :: n.data))
  have e2 : mid1 ++ (o.data ++ ':' :: ':' :: (l.data ++ ':' :: ':' :: n.data))
      = (mid1 ++ o.data) ++ ':' :: ':' :: (l.data ++ ':' :: ':' :: n.data) := by
    simp [List.append_assoc]
  obtain ⟨pre2, mid2, h2⟩ :=
    splitFirst_keeps_suffix (mid1 ++ o.data) (l.data ++ ':' :: ':' :: n.data)
  have e3 : mid2 ++ (l.data ++ ':' :: ':' :: n.data)
      = (mid2 ++ l.data) ++ ':' :: ':' :: n.data := by
    simp [List.append_assoc]
  obtain ⟨pre3, mid3, h3⟩ := splitFirst_keeps_suffix (mid2 ++ l.data) n.data
  have hsplit : pySplit [':', ':'] 3
      ("FOCUS_COMPLETE".data
        ++ ':' :: ':' :: (o.data ++ ':' :: ':' :: (l.data ++ ':' :: ':' :: n.data)))
      = [pre1, pre2, pre3, mid3 ++ n.data] := by
    simp only [pySplit]
    rw [h1]
    dsimp only
    rw [e2, h2]
    dsimp only
    rw [e3, h3]
  have hpre2 : "FOCUS_COMPLETE::".data.isPrefixOf (completeFocusExecute o l n).output.data
      = true := by
    rw [completeFocusExecute_data]
    simp [List.isPrefixOf_iff_prefix, List.append_assoc]
  refine ⟨⟨String.mk pre2, String.mk pre3, String.mk (mid3 ++ n.data)⟩, ?_⟩
  unfold parseFocusComplete
  rw [hpre2]
  simp only [if_true]
  rw [hform, hsplit]
  simp [List.getD]

theorem executeToolWithFocus_complete_emptyStack (oracle : Oracle)
    (args : List (String × String)) (s : AgentState) (o l : String)
    (hstack : s.focusStack = [])
    (hext : oracle.externTool "complete_focus" args = none)
    (ho : args.lookup "outcome" = some o) (hl : args.lookup "learnings" = some l) :
    executeToolWithFocus oracle "complete_focus" args s
      = (⟨false, "", some "No active focus to complete. Use start_focus first.", false⟩,
         bumpToolCalls s) := by
  have heq : executeTool oracle "complete_focus" args s
      = (completeFocusExecute o l ((args.lookup "next_action").getD ""), bumpToolCalls s) := by
    unfold executeTool
    rw [hext]
    rw [if_neg (by decide : ¬ ("complete_focus" = "start_focus")), if_pos rfl, ho, hl]
  obtain ⟨fd, hfd⟩ := parseFocusComplete_execute_isSome o l ((args.lookup "next_action").getD "")
  unfold executeToolWithFocus
  rw [heq]
  simp only []
  rw [if_pos ⟨rfl, completeFocusExecute_output_ne o l _⟩]
  rw [parseFocusStart_on_complete, hfd]
  exact handleCompleteFocus_emptyStack fd _ (bumpToolCalls s) hstack

/-- C3: invoking `complete_focus` with no active focus fails with the
empty-stack error as a tool-level failure (no compression signal, so the
run is not terminated), and mutates neither the ledger, nor the stack, nor
the buffer, nor the compression counters: the handler returns the failed
result with the state untouched, and the run loop merely appends the error
as an ordinary tool-result turn (counting the tool call) and carries on
with `focus_completed = false`. -/
theorem c3_empty_stack_close (d : FocusData) (now : Nat) (s : AgentState)
    (h : s.focusStack = []) :
    handleCompleteFocus d now s
        = (⟨false, "", some "No active focus to complete. Use start_focus first.", false⟩, s) ∧
      ∀ (oracle : Oracle) (tcid : String) (args : List (String × String)) (o l : String),
        oracle.externTool "complete_focus" args = none →
        args.lookup "outcome" = some o → args.lookup "learnings" = some l →
        processBatch oracle [⟨tcid, "complete_focus", args⟩] s
          = (addMessage
              (toolMsg "Error: No active focus to complete. Use start_focus first."
                tcid "complete_focus")
              (bumpToolCalls s), false) := by
  constructor
  · exact handleCompleteFocus_emptyStack d now s h
  · intro oracle tcid args o l hext ho hl
    unfold processBatch
    rw [executeToolWithFocus_complete_emptyStack oracle args s o l h hext ho hl]
    simp [processBatch, toolTurnContent]

/-- Witness for `c3_empty_stack_close` on a two-turn buffer with an empty
stack and concrete tool-call arguments. -/
theorem c3_empty_stack_close_witness :
    handleCompleteFocus ⟨"success", "L", ""⟩ 7 emptyStackState
        = (⟨false, "", some "No active focus to complete. Use start_focus first.", false⟩,
           emptyStackState) ∧
      ∀ (oracle : Oracle) (tcid : String) (args : List (String × String)) (o l : String),
        oracle.externTool "complete_focus" args = none →
        args.lookup "outcome" = some o → args.lookup "learnings" = some l →
        processBatch oracle [⟨tcid, "complete_focus", args⟩] emptyStackState
          = (addMessage
              (toolMsg "Error: No active focus to complete. Use start_focus first."
                tcid "complete_focus")
              (bumpToolCalls emptyStackState), false) :=
  c3_empty_stack_close ⟨"success", "L", ""⟩ 7 emptyStackState rfl

/-! ## Claim C4: the §8 scenario -/

/-- C4, as stated, is false on the code: in the scenario (focus "A" opened,
three tool-call/result pairs, closed with `success`/learnings "X") the
buffer after truncation has 4 turns, not the protected minimum 2 — the
backward scan stops just after the `start_focus` tool result, keeping the
`start_focus` call turn and its result.  The post-compression trajectory
snapshot (index 5) records `message_count = 4`. -/
theorem c4_postTruncation_length :
    (c4Run.2.1.metrics.trajectory[5]?).map StepSnapshot.messageCount = some 4 := by
  decide

theorem c4_scenario_counterexample :
    (c4Run.2.1.metrics.trajectory[5]?).map StepSnapshot.messageCount = some 4 ∧
      (c4Run.2.1.metrics.trajectory[5]?).map StepSnapshot.messageCount ≠ some 2 :=
  ⟨c4_postTruncation_length, by rw [c4_postTruncation_length]; decide⟩

theorem c4_snapshot5 :
    c4Run.2.1.metrics.trajectory[5]? = some (⟨5, 4, 75, 1, 5⟩ : StepSnapshot) := by
  decide

theorem c4_ledger : c4Run.2.1.knowledge = [(⟨"A", "G", "success", "X"⟩ : KnowledgeEntry)] := by
  decide

set_option maxRecDepth 2048 in
theorem c4_system_contains :
    containsSub "X".data ((c4Run.2.1.messages.headD (sysMsg "")).content).data = true := by
  decide

theorem c4_system_role : (c4Run.2.1.messages[0]?).map Message.role = some MessageRole.system := by
  decide

theorem c4_success : c4Run.1.success = true := by
  decide

/-- C4 (amended): in the §8 scenario the buffer length immediately after
truncation equals 4 — the protected minimum 2 plus the retained
`start_focus` call turn and its tool result; the Knowledge Ledger has
exactly one entry with learnings "X"; and the system turn transmitted to
the next inference call (which is never modified again after the splice)
contains "X". -/
theorem c4_scenario_amended :
    c4Run.2.1.metrics.trajectory[5]? = some ⟨5, 4, 75, 1, 5⟩ ∧
      c4Run.2.1.knowledge = [⟨"A", "G", "success", "X"⟩] ∧
      containsSub "X".data ((c4Run.2.1.messages.headD (sysMsg "")).content).data = true ∧
      (c4Run.2.1.messages[0]?).map Message.role = some MessageRole.system ∧
      c4Run.1.success = true :=
  ⟨c4_snapshot5, c4_ledger, c4_system_contains, c4_system_role, c4_success⟩

/-! ## Per-operation bookkeeping lemmas for the run loop -/

theorem executeTool_projections (oracle : Oracle) (n : String)
    (args : List (String × String)) (s : AgentState) :
    (executeTool oracle n args s).2.messages = s.messages ∧
      (executeTool oracle n args s).2.focusStack = s.focusStack ∧
      (executeTool oracle n args s).2.knowledge = s.knowledge ∧
      (executeTool oracle n args s).2.metrics.trajectory = s.metrics.trajectory ∧
      (executeTool oracle n args s).2.metrics.llmCalls = s.metrics.llmCalls ∧
      (executeTool oracle n args s).2.metrics.compressions = s.metrics.compressions := by
  cases hx : oracle.externTool n args with
  | some r =>
    unfold executeTool
    rw [hx]
    simp [bumpToolCalls]
  | none =>
    unfold executeTool
    rw [hx]
    by_cases h1 : n = "start_focus"
    · rw [if_pos h1]
      cases hd : args.lookup "description" <;> cases hg : args.lookup "goal" <;>
        simp [bumpToolCalls]
    · rw [if_neg h1]
      by_cases h2 : n = "complete_focus"
      · rw [if_pos h2]
        cases ho : args.lookup "outcome" <;> cases hl : args.lookup "learnings" <;>
          simp [bumpToolCalls]
      · rw [if_neg h2]
        simp

theorem executeTool_isCompression_false (oracle : Oracle) (n : String)
    (args : List (String × String)) (s : AgentState)
    (hsane : ∀ n2 a r, oracle.externTool n2 a = some r → r.isCompression = false) :
    (executeTool oracle n args s).1.isCompression = false := by
  cases hx : oracle.externTool n args with
  | some r =>
    unfold executeTool
    rw [hx]
    exact hsane n args r hx
  | none =>
    unfold executeTool
    rw [hx]
    by_cases h1 : n = "start_focus"
    · rw [if_pos h1]
      cases hd : args.lookup "description" <;> cases hg : args.lookup "goal" <;>
        simp [startFocusExecute]
    · rw [if_neg h1]
      by_cases h2 : n = "complete_focus"
      · rw [if_pos h2]
        cases ho : args.lookup "outcome" <;> cases hl : args.lookup "learnings" <;>
          simp [completeFocusExecute]
      · rw [if_neg h2]

theorem handleCompleteFocus_cons_spec (d : FocusData) (now : Nat) (s : AgentState)
    (f : FocusState) (stackRest : List FocusState) (h : s.focusStack = f :: stackRest) :
    ∃ snap : StepSnapshot,
      (handleCompleteFocus d now s).1.isCompression = true ∧
        (handleCompleteFocus d now s).2.metrics.trajectory = s.metrics.trajectory ++ [snap] ∧
        snap.compressionsSoFar = (handleCompleteFocus d now s).2.metrics.compressions ∧
        (handleCompleteFocus d now s).2.metrics.compressions
          = (if 0 < s.messages.length - findSafeTruncationPoint s.messages f.startMessageIndex
             then s.metrics.compressions + 1 else s.metrics.compressions) ∧
        (handleCompleteFocus d now s).2.metrics.llmCalls = s.metrics.llmCalls ∧
        (handleCompleteFocus d now s).2.knowledge
          = s.knowledge ++ [⟨f.description, f.goal, d.outcome, d.learnings⟩] ∧
        (handleCompleteFocus d now s).2.focusStack = stackRest := by
  unfold handleCompleteFocus
  rw [h]
  by_cases hdrop : 0 < s.messages.length - findSafeTruncationPoint s.messages f.startMessageIndex
  · refine ⟨⟨s.metrics.llmCalls,
      (rebuildMessagesWithKnowledge
        (s.knowledge ++ [⟨f.description, f.goal, d.outcome, d.learnings⟩])
        (s.messages.take (findSafeTruncationPoint s.messages f.startMessageIndex))).length,
      s.metrics.totalInputTokens + s.metrics.totalOutputTokens,
      s.metrics.compressions + 1, now⟩, ?_, ?_, ?_, ?_, ?_, ?_, ?_⟩ <;> simp [hdrop]
  · refine ⟨⟨s.metrics.llmCalls,
      (rebuildMessagesWithKnowledge
        (s.knowledge ++ [⟨f.description, f.goal, d.outcome, d.learnings⟩]) s.messages).length,
      s.metrics.totalInputTokens + s.metrics.totalOutputTokens,
      s.metrics.compressions, now⟩, ?_, ?_, ?_, ?_, ?_, ?_, ?_⟩ <;> simp [hdrop]

theorem handleCompleteFocus_cons_messages (d : FocusData) (now : Nat) (s : AgentState)
    (f : FocusState) (stackRest : List FocusState) (h : s.focusStack = f :: stackRest)
    (hdrop : 0 < s.messages.length - findSafeTruncationPoint s.messages f.startMessageIndex) :
    (handleCompleteFocus d now s).2.messages
      = rebuildMessagesWithKnowledge
          (s.knowledge ++ [⟨f.description, f.goal, d.outcome, d.learnings⟩])
          (s.messages.take (findSafeTruncationPoint s.messages f.startMessageIndex))
        ++ [userMsg (continuationText f.description d)] := by
  unfold handleCompleteFocus
  rw [h]
  simp [hdrop]

theorem bumpLlm_projections (i o : Nat) (s : AgentState) :
    (bumpLlm i o s).metrics.trajectory = s.metrics.trajectory ∧
      (bumpLlm i o s).metrics.llmCalls = s.metrics.llmCalls + 1 ∧
      (bumpLlm i o s).metrics.compressions = s.metrics.compressions := by
  refine ⟨rfl, rfl, rfl⟩

theorem recordStepSnapshot_traj (step now : Nat) (s : AgentState) :
    (recordStepSnapshot step now s).metrics.trajectory
        = s.metrics.trajectory
          ++ [⟨step, s.messages.length,
               s.metrics.totalInputTokens + s.metrics.totalOutputTokens,
               s.metrics.compressions, now⟩] ∧
      (recordStepSnapshot step now s).metrics.llmCalls = s.metrics.llmCalls ∧
      (recordStepSnapshot step now s).metrics.compressions = s.metrics.compressions := by
  refine ⟨rfl, rfl, rfl⟩

/-! ## Claim C5: trajectory consistency -/

theorem sameBatch_ghost_one : sameBatchRun.2.2 = 1 := by
  decide

theorem sameBatch_compressions_zero : sameBatchRun.2.1.metrics.compressions = 0 := by
  decide

theorem sameBatch_ledger_one : sameBatchRun.2.1.knowledge.length = 1 := by
  decide

/-- C5, as stated, is false: when `start_focus` and `complete_focus` arrive
in the same assistant batch, the safe truncation point equals the buffer
length, zero turns are dropped, and the (successful, compression-signalling)
`complete_focus` leaves the compression counter unchanged: one compression
event (`.2.2 = 1`, with its knowledge entry recorded), yet
`metrics.compressions` stays 0 rather than increasing by 1. -/
theorem c5_increment_counterexample :
    sameBatchRun.2.2 = 1 ∧ sameBatchRun.2.1.knowledge.length = 1 ∧
      sameBatchRun.2.1.metrics.compressions = 0 :=
  ⟨sameBatch_ghost_one, sameBatch_ledger_one, sameBatch_compressions_zero⟩

theorem trajectoryMonotone_append (traj : List StepSnapshot) (snap : StepSnapshot)
    (h : trajectoryMonotone traj)
    (hle : ∀ x ∈ traj.getLast?, x.compressionsSoFar ≤ snap.compressionsSoFar) :
    trajectoryMonotone (traj ++ [snap]) := by
  unfold trajectoryMonotone at h ⊢
  rw [List.chain'_append]
  refine ⟨h, List.chain'_singleton _, ?_⟩
  intro x hx y hy
  simp only [List.head?_cons, Option.mem_def, Option.some.injEq] at hy
  subst hy
  exact hle x hx

theorem trajMono_of_eq (s s' : AgentState)
    (ht : s'.metrics.trajectory = s.metrics.trajectory)
    (hc : s.metrics.compressions ≤ s'.metrics.compressions)
    (h : trajMono s) : trajMono s' := by
  refine ⟨by rw [ht]; exact h.1, ?_⟩
  intro x hx
  rw [ht] at hx
  exact le_trans (h.2 x hx) hc

theorem trajMono_snapshot (s s' : AgentState) (snap : StepSnapshot)
    (ht : s'.metrics.trajectory = s.metrics.trajectory ++ [snap])
    (hs : snap.compressionsSoFar = s'.metrics.compressions)
    (hc : s.metrics.compressions ≤ s'.metrics.compressions)
    (h : trajMono s) : trajMono s' := by
  constructor
  · rw [ht]
    refine trajectoryMonotone_append _ _ h.1 ?_
    intro x hx
    rw [hs]
    exact le_trans (h.2 x hx) hc
  · intro x hx
    rw [ht, List.getLast?_concat] at hx
    simp only [Option.mem_def, Option.some.injEq] at hx
    subst hx
    rw [hs]

theorem trajMono_handleCompleteFocus (d : FocusData) (now : Nat) (s : AgentState)
    (h : trajMono s) : trajMono (handleCompleteFocus d now s).2 := by
  cases hstack : s.focusStack with
  | nil =>
    rw [handleCompleteFocus_emptyStack d now s hstack]
    exact h
  | cons f stackRest =>
    obtain ⟨snap, _, htr, hcsf, hcomp, _, _, _⟩ :=
      handleCompleteFocus_cons_spec d now s f stackRest hstack
    refine trajMono_snapshot s _ snap htr hcsf ?_ h
    rw [hcomp]
    split <;> omega

theorem trajMono_executeToolWithFocus (oracle : Oracle) (name : String)
    (args : List (String × String)) (s : AgentState) (h : trajMono s) :
    trajMono (executeToolWithFocus oracle name args s).2 := by
  rcases hE : executeTool oracle name args s with ⟨r, s1⟩
  obtain ⟨hm, hf, hk, ht, hllm, hc⟩ := executeTool_projections oracle name args s
  rw [hE] at ht hc
  have h1 : trajMono s1 := trajMono_of_eq s s1 ht (by rw [hc]) h
  unfold executeToolWithFocus
  rw [hE]
  dsimp only
  by_cases hcond : r.success = true ∧ r.output ≠ ""
  · rw [if_pos hcond]
    cases hps : parseFocusStart r.output with
    | some pr =>
      obtain ⟨dsc, gl⟩ := pr
      exact trajMono_of_eq s1 _ rfl (le_of_eq rfl) h1
    | none =>
      cases hpc : parseFocusComplete r.output with
      | some fd => exact trajMono_handleCompleteFocus fd _ s1 h1
      | none => exact h1
  · rw [if_neg hcond]
    exact h1

theorem trajMono_processBatch (oracle : Oracle) :
    ∀ (calls : List ToolCall) (s : AgentState), trajMono s →
      trajMono (processBatch oracle calls s).1 := by
  intro calls
  induction calls with
  | nil => intro s h; exact h
  | cons tc rest ih =>
    intro s h
    unfold processBatch
    rcases hE : executeToolWithFocus oracle tc.name tc.arguments s with ⟨r, s1⟩
    have h1 : trajMono s1 := by
      have := trajMono_executeToolWithFocus oracle tc.name tc.arguments s h
      rw [hE] at this
      exact this
    cases hic : r.isCompression with
    | true => simpa [hic] using h1
    | false =>
      simp only [hic, Bool.false_eq_true, if_false]
      exact ih _ (trajMono_of_eq s1 _ rfl (le_of_eq rfl) h1)

theorem trajMono_runSteps (oracle : Oracle) :
    ∀ (fuel step : Nat) (s : AgentState), trajMono s →
      trajMono (runSteps oracle step fuel s).2.1 := by
  intro fuel
  induction fuel with
  | zero =>
    intro step s h
    exact trajMono_of_eq s _ rfl (le_of_eq rfl) h
  | succ fuel ih =>
    intro step s h
    unfold runSteps
    have h1 : trajMono (addMessage
        (assistantMsg (oracle.respond step s.messages).content (oracle.respond step s.messages).toolCalls)
        (bumpLlm (oracle.respond step s.messages).inputTokens (oracle.respond step s.messages).outputTokens s)) :=
      trajMono_of_eq s _ rfl (le_of_eq rfl) h
    set s1 := addMessage
        (assistantMsg (oracle.respond step s.messages).content (oracle.respond step s.messages).toolCalls)
        (bumpLlm (oracle.respond step s.messages).inputTokens (oracle.respond step s.messages).outputTokens s) with hs1
    have h2 : trajMono (recordStepSnapshot step (oracle.clock s1.metrics.trajectory.length) s1) := by
      refine trajMono_snapshot s1 _ _ rfl rfl (le_of_eq rfl) h1
    set s2 := recordStepSnapshot step (oracle.clock s1.metrics.trajectory.length) s1 with hs2
    by_cases hdone : containsSub "TASK_COMPLETE".data (oracle.respond step s.messages).content.data = true
    · rw [if_pos hdone]
      exact trajMono_of_eq s2 _ rfl (le_of_eq rfl) h2
    · rw [if_neg hdone]
      by_cases hempty : (oracle.respond step s.messages).toolCalls.isEmpty = true
      · rw [if_pos hempty]
        exact ih _ _ (trajMono_of_eq s2 _ rfl (le_of_eq rfl) h2)
      · rw [if_neg hempty]
        exact ih _ _ (trajMono_processBatch oracle _ s2 h2)

/-- C5 (amended): across every run, the `cumulative-compressions` recorded
in the Trajectory is non-decreasing from each snapshot to the next; and a
successful `complete_focus` increases the live compression counter by
exactly 1 when the truncation drops at least one turn, and leaves it
unchanged when it drops none (the zero-drop case is reachable, see the
counterexample). -/
theorem c5_trajectory_consistency :
    (∀ (oracle : Oracle) (maxSteps : Nat) (task workspace : String),
        trajectoryMonotone (run oracle maxSteps task workspace).2.1.metrics.trajectory) ∧
      ∀ (d : FocusData) (now : Nat) (s : AgentState) (f : FocusState)
          (stackRest : List FocusState),
        s.focusStack = f :: stackRest →
        (handleCompleteFocus d now s).1.isCompression = true ∧
          (handleCompleteFocus d now s).2.metrics.compressions
            = (if 0 < s.messages.length - findSafeTruncationPoint s.messages f.startMessageIndex
               then s.metrics.compressions + 1 else s.metrics.compressions) := by
  constructor
  · intro oracle maxSteps task workspace
    have hinit : trajMono (addMessage (userMsg task)
        (addMessage (sysMsg (systemPromptText workspace)) initialState)) := by
      constructor
      · exact List.chain'_nil
      · intro x hx
        simp [addMessage, initialState] at hx
    exact (trajMono_runSteps oracle maxSteps 0 _ hinit).1
  · intro d now s f stackRest h
    obtain ⟨snap, hic, _, _, hcomp, _, _, _⟩ := handleCompleteFocus_cons_spec d now s f stackRest h
    exact ⟨hic, hcomp⟩

/-- Witness for `c5_trajectory_consistency`: the monotonicity conjunct on
the §8 scenario oracle and the increment conjunct on a mid-run state whose
truncation drops one turn. -/
theorem c5_trajectory_consistency_witness :
    trajectoryMonotone (run c4Oracle 8 "T" "/ws").2.1.metrics.trajectory ∧
      ((handleCompleteFocus ⟨"success", "X", ""⟩ 0 c5State).1.isCompression = true ∧
        (handleCompleteFocus ⟨"success", "X", ""⟩ 0 c5State).2.metrics.compressions
          = (if 0 < c5State.messages.length
                  - findSafeTruncationPoint c5State.messages (3 : Nat)
             then c5State.metrics.compressions + 1 else c5State.metrics.compressions)) :=
  ⟨c5_trajectory_consistency.1 c4Oracle 8 "T" "/ws",
   c5_trajectory_consistency.2 ⟨"success", "X", ""⟩ 0 c5State ⟨"A", "G", 3⟩ [] rfl⟩

/-! ## Claim C8: step-budget exhaustion -/

theorem executeToolWithFocus_count (oracle : Oracle) (name : String)
    (args : List (String × String)) (s : AgentState)
    (hsane : ∀ n2 a r, oracle.externTool n2 a = some r → r.isCompression = false) :
    (executeToolWithFocus oracle name args s).2.metrics.llmCalls = s.metrics.llmCalls ∧
      (executeToolWithFocus oracle name args s).2.metrics.trajectory.length
        = s.metrics.trajectory.length
          + (if (executeToolWithFocus oracle name args s).1.isCompression = true then 1 else 0) := by
  rcases hE : executeTool oracle name args s with ⟨r, s1⟩
  obtain ⟨hm, hf, hk, ht, hllm, hc⟩ := executeTool_projections oracle name args s
  rw [hE] at ht hllm
  dsimp only at ht hllm
  have hrcomp : r.isCompression = false := by
    have hx := executeTool_isCompression_false oracle name args s hsane
    rw [hE] at hx
    exact hx
  unfold executeToolWithFocus
  rw [hE]
  dsimp only
  by_cases hcond : r.success = true ∧ r.output ≠ ""
  · rw [if_pos hcond]
    cases hps : parseFocusStart r.output with
    | some pr =>
      obtain ⟨dsc, gl⟩ := pr
      dsimp only
      refine ⟨?_, ?_⟩
      · show (handleStartFocus dsc gl s1).metrics.llmCalls = s.metrics.llmCalls
        exact hllm
      · show s1.metrics.trajectory.length = s.metrics.trajectory.length + _
        simp [ht]
    | none =>
      cases hpc : parseFocusComplete r.output with
      | some fd =>
        dsimp only
        cases hstack : s1.focusStack with
        | nil =>
          rw [handleCompleteFocus_emptyStack fd _ s1 hstack]
          dsimp only
          refine ⟨hllm, ?_⟩
          simp [ht]
        | cons f stRest =>
          obtain ⟨snap, hic, htr, _, _, hll, _, _⟩ :=
            handleCompleteFocus_cons_spec fd (oracle.clock s1.metrics.trajectory.length)
              s1 f stRest hstack
          refine ⟨?_, ?_⟩
          · rw [hll, hllm]
          · rw [htr, hic, List.length_append, ht]
            simp
      | none =>
        dsimp only
        refine ⟨hllm, ?_⟩
        rw [hrcomp]
        simp [ht]
  · rw [if_neg hcond]
    dsimp only
    refine ⟨hllm, ?_⟩
    rw [hrcomp]
    simp [ht]

theorem processBatch_count (oracle : Oracle)
    (hsane : ∀ n2 a r, oracle.externTool n2 a = some r → r.isCompression = false) :
    ∀ (calls : List ToolCall) (s : AgentState),
      (processBatch oracle calls s).1.metrics.llmCalls = s.metrics.llmCalls ∧
        (processBatch oracle calls s).1.metrics.trajectory.length
          = s.metrics.trajectory.length
            + (if (processBatch oracle calls s).2 = true then 1 else 0) := by
  intro calls
  induction calls with
  | nil =>
    intro s
    exact ⟨rfl, rfl⟩
  | cons tc rest ih =>
    intro s
    obtain ⟨hllm, hlen⟩ := executeToolWithFocus_count oracle tc.name tc.arguments s hsane
    unfold processBatch
    rcases hE : executeToolWithFocus oracle tc.name tc.arguments s with ⟨r, s1⟩
    rw [hE] at hllm hlen
    dsimp only at hllm hlen ⊢
    cases hic : r.isCompression with
    | true =>
      rw [hic] at hlen
      simp only [hic, if_true]
      exact ⟨hllm, by simpa using hlen⟩
    | false =>
      rw [hic] at hlen
      simp only [hic, Bool.false_eq_true, if_false]
      obtain ⟨ih1, ih2⟩ := ih (addMessage (toolMsg (toolTurnContent r) tc.id tc.name) s1)
      have ha1 : (addMessage (toolMsg (toolTurnContent r) tc.id tc.name) s1).metrics.llmCalls
          = s1.metrics.llmCalls := rfl
      have ha2 : (addMessage (toolMsg (toolTurnContent r) tc.id tc.name) s1).metrics.trajectory
          = s1.metrics.trajectory := rfl
      refine ⟨?_, ?_⟩
      · rw [ih1, ha1, hllm]
      · rw [ih2, ha2]
        simp only [if_false, Bool.false_eq_true] at hlen
        omega

theorem runSteps_count (oracle : Oracle)
    (hsane : ∀ n2 a r, oracle.externTool n2 a = some r → r.isCompression = false)
    (hnc : ∀ i msgs, containsSub "TASK_COMPLETE".data (oracle.respond i msgs).content.data = false) :
    ∀ (fuel step : Nat) (s : AgentState),
      (runSteps oracle step fuel s).1
          = ⟨false, "Max steps reached without completing task.", some "max_steps_exceeded"⟩ ∧
        (runSteps oracle step fuel s).2.1.metrics.llmCalls = s.metrics.llmCalls + fuel ∧
        (runSteps oracle step fuel s).2.1.metrics.trajectory.length
          = s.metrics.trajectory.length + fuel + (runSteps oracle step fuel s).2.2 := by
  intro fuel
  induction fuel with
  | zero =>
    intro step s
    exact ⟨rfl, rfl, rfl⟩
  | succ fuel ih =>
    intro step s
    unfold runSteps
    simp only [hnc step s.messages, Bool.false_eq_true, if_false]
    by_cases hempty : (oracle.respond step s.messages).toolCalls.isEmpty = true
    · rw [if_pos hempty]
      obtain ⟨ihr, ihl, ihlen⟩ := ih (step + 1)
        (addMessage (userMsg "Continue working on the task. Use tools to make progress.")
          (recordStepSnapshot step
            (oracle.clock (addMessage
              (assistantMsg (oracle.respond step s.messages).content
                (oracle.respond step s.messages).toolCalls)
              (bumpLlm (oracle.respond step s.messages).inputTokens
                (oracle.respond step s.messages).outputTokens s)).metrics.trajectory.length)
            (addMessage
              (assistantMsg (oracle.respond step s.messages).content
                (oracle.respond step s.messages).toolCalls)
              (bumpLlm (oracle.respond step s.messages).inputTokens
                (oracle.respond step s.messages).outputTokens s))))
      refine ⟨ihr, ?_, ?_⟩
      · rw [ihl]
        show s.metrics.llmCalls + 1 + fuel = s.metrics.llmCalls + (fuel + 1)
        omega
      · rw [ihlen]
        have hlen2 : (addMessage (userMsg "Continue working on the task. Use tools to make progress.")
            (recordStepSnapshot step
              (oracle.clock (addMessage
                (assistantMsg (oracle.respond step s.messages).content
                  (oracle.respond step s.messages).toolCalls)
                (bumpLlm (oracle.respond step s.messages).inputTokens
                  (oracle.respond step s.messages).outputTokens s)).metrics.trajectory.length)
              (addMessage
                (assistantMsg (oracle.respond step s.messages).content
                  (oracle.respond step s.messages).toolCalls)
                (bumpLlm (oracle.respond step s.messages).inputTokens
                  (oracle.respond step s.messages).outputTokens s)))).metrics.trajectory.length
            = s.metrics.trajectory.length + 1 := by
          show (s.metrics.trajectory ++ [_]).length = s.metrics.trajectory.length + 1
          rw [List.length_append]
          rfl
        rw [hlen2]
        omega
    · rw [if_neg hempty]
      dsimp only
      rcases hB : processBatch oracle (oracle.respond step s.messages).toolCalls
          (recordStepSnapshot step
            (oracle.clock (addMessage
              (assistantMsg (oracle.respond step s.messages).content
                (oracle.respond step s.messages).toolCalls)
              (bumpLlm (oracle.respond step s.messages).inputTokens
                (oracle.respond step s.messages).outputTokens s)).metrics.trajectory.length)
            (addMessage
              (assistantMsg (oracle.respond step s.messages).content
                (oracle.respond step s.messages).toolCalls)
              (bumpLlm (oracle.respond step s.messages).inputTokens
                (oracle.respond step s.messages).outputTokens s))) with ⟨s3, flag⟩
      obtain ⟨hb1, hb2⟩ := processBatch_count oracle hsane
        (oracle.respond step s.messages).toolCalls
        (recordStepSnapshot step
          (oracle.clock (addMessage
            (assistantMsg (oracle.respond step s.messages).content
              (oracle.respond step s.messages).toolCalls)
            (bumpLlm (oracle.respond step s.messages).inputTokens
              (oracle.respond step s.messages).outputTokens s)).metrics.trajectory.length)
          (addMessage
            (assistantMsg (oracle.respond step s.messages).content
              (oracle.respond step s.messages).toolCalls)
            (bumpLlm (oracle.respond step s.messages).inputTokens
              (oracle.respond step s.messages).outputTokens s)))
      rw [hB] at hb1 hb2
      obtain ⟨ihr, ihl, ihlen⟩ := ih (step + 1) s3
      have hr1 : (recordStepSnapshot step
          (oracle.clock (addMessage
            (assistantMsg (oracle.respond step s.messages).content
              (oracle.respond step s.messages).toolCalls)
            (bumpLlm (oracle.respond step s.messages).inputTokens
              (oracle.respond step s.messages).outputTokens s)).metrics.trajectory.length)
          (addMessage
            (assistantMsg (oracle.respond step s.messages).content
              (oracle.respond step s.messages).toolCalls)
            (bumpLlm (oracle.respond step s.messages).inputTokens
              (oracle.respond step s.messages).outputTokens s))).metrics.llmCalls
          = s.metrics.llmCalls + 1 := rfl
      have hr2 : (recordStepSnapshot step
          (oracle.clock (addMessage
            (assistantMsg (oracle.respond step s.messages).content
              (oracle.respond step s.messages).toolCalls)
            (bumpLlm (oracle.respond step s.messages).inputTokens
              (oracle.respond step s.messages).outputTokens s)).metrics.trajectory.length)
          (addMessage
            (assistantMsg (oracle.respond step s.messages).content
              (oracle.respond step s.messages).toolCalls)
            (bumpLlm (oracle.respond step s.messages).inputTokens
              (oracle.respond step s.messages).outputTokens s))).metrics.trajectory.length
          = s.metrics.trajectory.length + 1 := by
        show (s.metrics.trajectory ++ [_]).length = s.metrics.trajectory.length + 1
        rw [List.length_append]
        rfl
      refine ⟨ihr, ?_, ?_⟩
      · rw [ihl, hb1, hr1]
        omega
      · rw [ihlen, hb2, hr2]
        cases flag <;> simp <;> omega

/-- C8: a run that never receives a completion signal terminates after
`max_steps` iterations with `success = false` and the dedicated outcome
code `max_steps_exceeded` (not an unattributed error), having made exactly
`max_steps` inference calls each of which recorded one trajectory
snapshot, so the Trajectory holds exactly `max_steps` inference-call
snapshots plus one snapshot per compression event (the run's compression
events are counted by the third component of `run`).  `hsane` states that
the external tools never fabricate the reserved compression signal, which
is true of every tool in this repository. -/
theorem c8_step_limit (oracle : Oracle) (maxSteps : Nat) (task workspace : String)
    (hsane : ∀ n2 a r, oracle.externTool n2 a = some r → r.isCompression = false)
    (hnc : ∀ i msgs, containsSub "TASK_COMPLETE".data (oracle.respond i msgs).content.data = false) :
    (run oracle maxSteps task workspace).1
        = ⟨false, "Max steps reached without completing task.", some "max_steps_exceeded"⟩ ∧
      (run oracle maxSteps task workspace).2.1.metrics.llmCalls = maxSteps ∧
      (run oracle maxSteps task workspace).2.1.metrics.trajectory.length
        = maxSteps + (run oracle maxSteps task workspace).2.2 := by
  obtain ⟨h1, h2, h3⟩ := runSteps_count oracle hsane hnc maxSteps 0
    (addMessage (userMsg task) (addMessage (sysMsg (systemPromptText workspace)) initialState))
  have h00 : (addMessage (userMsg task)
      (addMessage (sysMsg (systemPromptText workspace)) initialState)).metrics.llmCalls = 0 := rfl
  have h01 : (addMessage (userMsg task)
      (addMessage (sysMsg (systemPromptText workspace)) initialState)).metrics.trajectory.length
      = 0 := rfl
  rw [h00] at h2
  rw [h01] at h3
  refine ⟨h1, ?_, ?_⟩
  · show (runSteps oracle 0 maxSteps
        (addMessage (userMsg task)
          (addMessage (sysMsg (systemPromptText workspace)) initialState))).2.1.metrics.llmCalls
      = maxSteps
    omega
  · show (runSteps oracle 0 maxSteps
        (addMessage (userMsg task)
          (addMessage (sysMsg (systemPromptText workspace)) initialState))).2.1.metrics.trajectory.length
      = maxSteps + (runSteps oracle 0 maxSteps
          (addMessage (userMsg task)
            (addMessage (sysMsg (systemPromptText workspace)) initialState))).2.2
    omega

/-- Witness for `c8_step_limit`: the same-batch script never signals
completion, so a one-step run exhausts its budget. -/
theorem c8_step_limit_witness :
    (run sameBatchOracle 1 "T" "/ws").1
        = ⟨false, "Max steps reached without completing task.", some "max_steps_exceeded"⟩ ∧
      (run sameBatchOracle 1 "T" "/ws").2.1.metrics.llmCalls = 1 ∧
      (run sameBatchOracle 1 "T" "/ws").2.1.metrics.trajectory.length
        = 1 + (run sameBatchOracle 1 "T" "/ws").2.2 :=
  c8_step_limit sameBatchOracle 1 "T" "/ws"
    (fun n2 a r h => Option.noConfusion h)
    (fun i msgs => by
      unfold sameBatchOracle
      by_cases hi : i = 0 <;> simp [hi] <;> rfl)

/-! ## Claim C10: the complete_focus call leaves no trace in the buffer -/

theorem sameBatch_assistant_retained :
    (sameBatchRun.2.1.messages[2]?).map Message.toolCalls
      = some [⟨"t1", "start_focus", [("description", "A"), ("goal", "G")]⟩,
              ⟨"t2", "complete_focus", [("outcome", "success"), ("learnings", "L")]⟩] := by
  decide

theorem sameBatch_no_result_for_complete :
    sameBatchRun.2.1.messages.all (fun m => m.toolCallId != some "t2") = true := by
  decide

/-- C10, as stated, is false: when the `complete_focus` call arrives in the
same batch as the `start_focus` that opened the popped focus, the safe
truncation index equals the buffer length, nothing is truncated, and the
assistant turn that issued the `complete_focus` request remains in the
buffer (index 2 below) with no tool-result turn answering it — one
compression event took place, yet a request-for-action is left awaiting a
result. -/
theorem c10_retained_request_counterexample :
    (sameBatchRun.2.1.messages[2]?).map Message.toolCalls
        = some [⟨"t1", "start_focus", [("description", "A"), ("goal", "G")]⟩,
                ⟨"t2", "complete_focus", [("outcome", "success"), ("learnings", "L")]⟩] ∧
      sameBatchRun.2.1.messages.all (fun m => m.toolCallId != some "t2") = true ∧
      sameBatchRun.2.2 = 1 :=
  ⟨sameBatch_assistant_retained, sameBatch_no_result_for_complete, sameBatch_ghost_one⟩

theorem findSafeTruncationPoint_le (msgs : List Message) (t : Nat) (h : 1 ≤ t) :
    findSafeTruncationPoint msgs t ≤ t + 1 := by
  unfold findSafeTruncationPoint
  by_cases ht : t ≤ 2
  · rw [if_pos ht]
    omega
  · rw [if_neg ht]
    exact safeScan_le msgs t h

/-- C10 (amended): the run loop never appends a tool-result turn for a
compression-signalling call (the batch is abandoned at once); and whenever
the assistant turn that issued `complete_focus` lies strictly beyond the
popped marker's anchor (always the case when the focus was opened in an
earlier batch), the safe index is at most the anchor plus one — within the
prefix preceding that assistant turn — so the post-compression buffer is
rebuilt exclusively from that prefix plus the fresh continuation user turn,
and the `complete_focus` request is gone.  In the same-batch case the
assistant turn survives (see the counterexample). -/
theorem c10_compression_cleanup :
    (∀ (oracle : Oracle) (tc : ToolCall) (restCalls : List ToolCall) (s : AgentState)
        (r : ToolResult) (s1 : AgentState),
      executeToolWithFocus oracle tc.name tc.arguments s = (r, s1) → r.isCompression = true →
      processBatch oracle (tc :: restCalls) s = (s1, true)) ∧
      ∀ (d : FocusData) (now : Nat) (s : AgentState) (f : FocusState)
          (stackRest : List FocusState) (pre : List Message) (amsg : Message)
          (post : List Message),
        s.focusStack = f :: stackRest → s.messages = pre ++ amsg :: post →
        1 ≤ f.startMessageIndex → f.startMessageIndex < pre.length →
        findSafeTruncationPoint s.messages f.startMessageIndex ≤ pre.length ∧
          (handleCompleteFocus d now s).2.messages
            = rebuildMessagesWithKnowledge
                (s.knowledge ++ [⟨f.description, f.goal, d.outcome, d.learnings⟩])
                (pre.take (findSafeTruncationPoint s.messages f.startMessageIndex))
              ++ [userMsg (continuationText f.description d)] := by
  constructor
  · intro oracle tc restCalls s r s1 hE hic
    unfold processBatch
    rw [hE]
    dsimp only
    rw [hic]
    simp
  · intro d now s f stackRest pre amsg post hstack hmsg hanchor1 hanchor2
    have hsafe : findSafeTruncationPoint s.messages f.startMessageIndex ≤ pre.length := by
      have := findSafeTruncationPoint_le s.messages f.startMessageIndex hanchor1
      omega
    have hlen : s.messages.length = pre.length + post.length + 1 := by
      rw [hmsg]
      simp [List.length_append]
      omega
    have hdrop : 0 < s.messages.length
        - findSafeTruncationPoint s.messages f.startMessageIndex := by
      omega
    refine ⟨hsafe, ?_⟩
    rw [handleCompleteFocus_cons_messages d now s f stackRest hstack hdrop]
    congr 2
    rw [hmsg, List.take_append_eq_append_take,
      show findSafeTruncationPoint (pre ++ amsg :: post) f.startMessageIndex - pre.length = 0 by
        rw [← hmsg]
        omega,
      List.take_zero, List.append_nil]

/-- Witness for `c10_compression_cleanup`: the batch-abandonment conjunct
on a concrete compressing call and the cleanup conjunct on a mid-run state
whose focus was opened in an earlier batch. -/
theorem c10_compression_cleanup_witness :
    processBatch sameBatchOracle
        [⟨"t9", "complete_focus", [("outcome", "success"), ("learnings", "L")]⟩] c5State
        = ((executeToolWithFocus sameBatchOracle "complete_focus"
            [("outcome", "success"), ("learnings", "L")] c5State).2, true) ∧
      (findSafeTruncationPoint c5State.messages 3 ≤ 4 ∧
        (handleCompleteFocus ⟨"success", "L", ""⟩ 0 c5State).2.messages
          = rebuildMessagesWithKnowledge
              (c5State.knowledge ++ [⟨"A", "G", "success", "L"⟩])
              ((c1Msgs.take 4).take (findSafeTruncationPoint c5State.messages 3))
            ++ [userMsg (continuationText "A" ⟨"success", "L", ""⟩)]) :=
  ⟨c10_compression_cleanup.1 sameBatchOracle
      ⟨"t9", "complete_focus", [("outcome", "success"), ("learnings", "L")]⟩ [] c5State
      (executeToolWithFocus sameBatchOracle "complete_focus"
        [("outcome", "success"), ("learnings", "L")] c5State).1
      (executeToolWithFocus sameBatchOracle "complete_focus"
        [("outcome", "success"), ("learnings", "L")] c5State).2
      rfl (by decide),
   c10_compression_cleanup.2 ⟨"success", "L", ""⟩ 0 c5State ⟨"A", "G", 3⟩ []
      (c1Msgs.take 4) (userMsg "u") [] rfl (by decide) (by decide) (by decide)⟩

end ACC
